import Mathlib

/-!
Verification development for the audio-noise-reduction repository.

The core under verification is `src/core/noise_reducer.py` (class `NoiseReducer`)
and `src/core/evaluator.py` (class `AudioEvaluator`).  Signals are modelled as
`List ℚ` (exact rational samples).  Two real-valued library primitives that have
no exact rational realisation are passed as explicit oracle arguments:

* `sqrtFn : ℚ → ℚ` models `np.sqrt`;
* `logFn : ℚ → ℚ` models `np.log10`.

Theorems that depend on the analytic meaning of these primitives carry explicit
exactness hypotheses at the points where they are applied (for example
`sqrtFn e * sqrtFn e = e`); these hypotheses are satisfiable by rational inputs
whose square roots / base-10 logarithms are rational, and witnesses instantiate
them concretely.

The Fourier-transform and IIR-filter library calls (`librosa.stft`,
`librosa.istft`, `scipy.signal.butter`/`filtfilt`) are external DSP backends;
following the spec's own design note ("define capability interfaces …
implemented against any suitable numeric/DSP backend"), they are modelled as a
`DSPBackend` structure whose fields carry exactly the shape contracts the
library documents (`istft(..., length=n)` returns `n` samples; `filtfilt`
preserves length).  The wavelet kernel (`scipy.signal.ricker`, transcendental
values) is likewise an explicit parameter `kern`; `scipy.signal.cwt`'s control
structure is modelled concretely in `cwtModel`.
-/

/-- Mean of a rational list: `np.mean`.  (`np.mean` of an empty array is NaN
with a warning; the model returns `0` there — all uses in claims are on
non-empty lists.) -/
def qmean (l : List ℚ) : ℚ := l.sum / l.length

/-- Mean of squares, `np.mean(x**2)`; `np.sqrt` of it is the RMS. -/
def meanSq (l : List ℚ) : ℚ := qmean (l.map (fun s => s ^ 2))

/-- Maximum of a list: `np.max`.  `np.max` raises on an empty array; each call
site on a possibly-empty list guards emptiness explicitly. -/
def listMax : List ℚ → ℚ
  | [] => 0
  | h :: t => t.foldl max h

/-- Insert into an ascending sorted list (helper for `sortAsc`). -/
def insertAsc (x : ℚ) : List ℚ → List ℚ
  | [] => [x]
  | h :: t => if x ≤ h then x :: h :: t else h :: insertAsc x t

/-- Ascending insertion sort (helper for `qmedian`). -/
def sortAsc : List ℚ → List ℚ
  | [] => []
  | h :: t => insertAsc h (sortAsc t)

/-- Median: `np.median` (flattened input sorted; midpoint, or the average of
the two middle elements for an even count). -/
def qmedian (l : List ℚ) : ℚ :=
  let s := sortAsc l
  let n := s.length
  if n % 2 = 1 then s.getD (n / 2) 0
  else (s.getD (n / 2 - 1) 0 + s.getD (n / 2) 0) / 2

/-- Full discrete convolution (mode `'full'`): entry `k` is
`Σ_i a_i * v_(k-i)`. -/
def fullConv (a v : List ℚ) : List ℚ :=
  (List.range (a.length + v.length - 1)).map (fun k =>
    ((List.range (k + 1)).map (fun i => a.getD i 0 * v.getD (k - i) 0)).sum)

/-- `scipy.signal.convolve(a, v, mode='same')`: the central `len(a)` samples of
the full convolution (output sized like the first input). -/
def convolveSameSci (a v : List ℚ) : List ℚ :=
  ((fullConv a v).drop ((v.length - 1) / 2)).take a.length

/-- `np.convolve(a, v, mode='same')`: the central `max(len(a), len(v))` samples
of the full convolution. -/
def convolveSameNp (a v : List ℚ) : List ℚ :=
  ((fullConv a v).drop ((min a.length v.length - 1) / 2)).take (max a.length v.length)

/-- `librosa.util.frame(x, frame_length, hop_length)`: the
`1 + (len - frame_length) // hop_length` full-length frames.  librosa raises
`ParameterError` when the input is shorter than one frame or the hop is not
positive; those failures are `none`. -/
def frameModel (x : List ℚ) (fl hop : ℕ) : Option (List (List ℚ)) :=
  if hop < 1 then none
  else if x.length < fl then none
  else some ((List.range (1 + (x.length - fl) / hop)).map
    (fun i => (x.drop (i * hop)).take fl))

/-- `librosa.amplitude_to_db(S, ref=np.max)` with its default `amin = 1e-5` and
`top_db = 80`: per entry `10*log10(max(1e-10, |s|^2)) - 10*log10(max(1e-10, ref^2))`
with `ref = np.max(|S|)`, then clipped from below at `max - 80`. -/
def amplitudeToDb (logFn : ℚ → ℚ) (s : List ℚ) : List ℚ :=
  let magnitude := s.map (fun v => |v|)
  let refValue := listMax magnitude
  let logSpec := magnitude.map (fun m =>
    10 * logFn (max (1 / 10000000000) (m ^ 2)) -
      10 * logFn (max (1 / 10000000000) (refValue ^ 2)))
  logSpec.map (fun v => max v (listMax logSpec - 80))

/-- `int(0.02 * sr)`: the 20 ms energy frame length. -/
def frameLen (sr : ℕ) : ℕ := sr / 50

/-- `int(0.01 * sr)`: the 10 ms energy hop length. -/
def hopLen (sr : ℕ) : ℕ := sr / 100

/-- Shared short-time-energy framing used by both `NoiseReducer.detect_silence`
and `AudioEvaluator.detect_silence` (the two methods duplicate this code):
frame, per-frame energy `np.sum(frames**2, axis=0)`, convert with
`amplitude_to_db(..., ref=np.max)`, and flag frames strictly below the
threshold. -/
def silenceFrames (logFn : ℚ → ℚ) (x : List ℚ) (sr : ℕ) (thresholdDb : ℚ) :
    Option (List Bool) :=
  (frameModel x (frameLen sr) (hopLen sr)).map (fun frames =>
    let energy := frames.map (fun f => (f.map (fun s => s ^ 2)).sum)
    (amplitudeToDb logFn energy).map (fun d => decide (d < thresholdDb)))

/-- External DSP capability interface (spec §9): the STFT magnitude, the
phase-preserving reconstruction `istft(mag * exp(1j*angle(stft(orig))), hop,
length=len)`, and the zero-phase Butterworth low-pass `filtfilt(butter(8, 0.1),
x)`.  The two laws are the library's documented shape contracts: `istft` with
an explicit `length` returns exactly that many samples, and `filtfilt`
preserves length. -/
structure DSPBackend where
  stftMag : List ℚ → ℕ → ℕ → List (List ℚ)
  reconstruct : List (List ℚ) → List ℚ → ℕ → ℕ → List ℚ
  lowpass : List ℚ → List ℚ
  reconstruct_len : ∀ m orig hop len, (reconstruct m orig hop len).length = len
  lowpass_len : ∀ x, (lowpass x).length = x.length

namespace NoiseReducer

/-- `NoiseReducer.detect_silence` (noise_reducer.py:27-60) at the default
threshold `self.silence_threshold_db = -45`: frame-level silence flags expanded
to a sample-level mask (`full_mask[start:end] = True` for each silent frame,
with `start = i*hop` and `end = min(start+frame_length, len)`). -/
def detect_silence (logFn : ℚ → ℚ) (sampleRate : ℕ) (x : List ℚ) :
    Option (List Bool) :=
  (silenceFrames logFn x sampleRate (-45)).map (fun sf =>
    (List.range x.length).map (fun j =>
      (List.range sf.length).any (fun i =>
        sf.getD i false && decide (i * hopLen sampleRate ≤ j) &&
          decide (j < i * hopLen sampleRate + frameLen sampleRate))))

/-- `np.mean(noise_mag, axis=1)` (noise_reducer.py:90): per-frequency-bin mean
of the noise-sample magnitude spectrogram — the NoiseProfile. -/
def noiseSpecOf (m : List (List ℚ)) : List ℚ := m.map qmean

/-- The spectral-subtraction step (noise_reducer.py:94):
`np.maximum(stft_mag - noise_spec, 0.01 * stft_mag)`, with `noise_spec`
broadcast along the frame axis (one value per frequency-bin row). -/
def spectralSubtract (stftM : List (List ℚ)) (noiseSpec : List ℚ) :
    List (List ℚ) :=
  List.zipWith (fun row nv => row.map (fun mg => max (mg - nv) ((1 / 100) * mg)))
    stftM noiseSpec

/-- `NoiseReducer.reduce_noise_standard` (noise_reducer.py:62-105).  If any
sample is flagged silent: estimate the noise profile from the silent-sample
subsequence, apply spectral subtraction (frame 2048 / hop 512) and reconstruct
with the original phase to exactly `len(audio_data)` samples; otherwise apply
the 8th-order low-pass `filtfilt` fallback. -/
def reduce_noise_standard (B : DSPBackend) (logFn : ℚ → ℚ) (sampleRate : ℕ)
    (x : List ℚ) : Option (List ℚ) :=
  (detect_silence logFn sampleRate x).map (fun mask =>
    if mask.any id then
      let noiseSample := (x.zip mask).filterMap
        (fun p => if p.2 then some p.1 else none)
      let stftM := B.stftMag x 2048 512
      let noiseMag := B.stftMag noiseSample 2048 512
      let masked := spectralSubtract stftM (noiseSpecOf noiseMag)
      B.reconstruct masked x 512 x.length
    else B.lowpass x)

/-- `scipy.signal.cwt(data, ricker, np.arange(1, 31))` (noise_reducer.py:118):
for each width `w = 1..30`, convolve the data with the reversed kernel sampled
at `N = min(10*w, len(data))` points, mode `'same'`.  The transcendental Ricker
kernel is the parameter `kern`. -/
def cwtModel (kern : ℕ → ℕ → List ℚ) (x : List ℚ) : List (List ℚ) :=
  (List.range 30).map (fun i =>
    let w := i + 1
    let n := min (10 * w) x.length
    convolveSameSci x ((kern n w).reverse))

/-- The wavelet threshold (noise_reducer.py:121):
`self.wavelet_threshold_mult * np.median(np.abs(coeffs)) / 0.6745` with the
multiplier fixed to `2.5` in `__init__`. -/
def waveletThreshold (kern : ℕ → ℕ → List ℚ) (x : List ℚ) : ℚ :=
  (5 / 2) * qmedian ((cwtModel kern x).flatten.map (fun c => |c|)) / (6745 / 10000)

/-- Hard thresholding (noise_reducer.py:124): `coeffs * (np.abs(coeffs) > threshold)`
— a coefficient is kept exactly when its absolute value exceeds the threshold
strictly, and zeroed otherwise. -/
def thresholdCoeffs (kern : ℕ → ℕ → List ℚ) (x : List ℚ) : List (List ℚ) :=
  let thr := waveletThreshold kern x
  (cwtModel kern x).map (fun row => row.map (fun c => if thr < |c| then c else 0))

/-- `np.mean(coeffs_thresholded, axis=0)` (noise_reducer.py:127): per-time
mean across the 30 scales. -/
def meanAxis0 (rows : List (List ℚ)) : List ℚ :=
  (List.range (rows.headD []).length).map (fun j =>
    (rows.map (fun r => r.getD j 0)).sum / rows.length)

/-- The reconstructed (pre-normalisation) wavelet signal. -/
def waveletDenoisedRaw (kern : ℕ → ℕ → List ℚ) (x : List ℚ) : List ℚ :=
  meanAxis0 (thresholdCoeffs kern x)

/-- Unit-peak normalisation (noise_reducer.py:130-131): divide by the peak
when `np.max(np.abs(...)) > 0`. -/
def waveletNormalized (kern : ℕ → ℕ → List ℚ) (x : List ℚ) : List ℚ :=
  let d := waveletDenoisedRaw kern x
  let pk := listMax (d.map (fun v => |v|))
  if 0 < pk then d.map (fun s => s / pk) else d

/-- `NoiseReducer.reduce_noise_wavelet` (noise_reducer.py:107-140).  The
`sampleRate` argument mirrors `self.sample_rate`, which this method never
reads.  `np` reductions raise on an empty buffer (noise_reducer.py:130), hence
`none` there; otherwise: threshold, reconstruct, normalise to unit peak, and
rescale by `orig_rms / denoised_rms` when the denoised RMS is positive. -/
def reduce_noise_wavelet (sqrtFn : ℚ → ℚ) (kern : ℕ → ℕ → List ℚ)
    (sampleRate : ℕ) (x : List ℚ) : Option (List ℚ) :=
  match x with
  | [] => none
  | _ :: _ =>
    let dn := waveletNormalized kern x
    let origEnergy := sqrtFn (meanSq x)
    let denEnergy := sqrtFn (meanSq dn)
    some (if 0 < denEnergy then dn.map (fun s => s * (origEnergy / denEnergy)) else dn)

/-- `NoiseReducer.multi_stage_denoising` (noise_reducer.py:142-167):
`stage1 = reduce_noise_standard(x)`, `stage2 = reduce_noise_wavelet(stage1)`,
silence mask recomputed on the original input, then per sample
`0.9 * stage2` on silent samples and `0.6 * stage2 + 0.4 * x` elsewhere
(into `np.zeros_like(audio_data)`, so the output has the input's length). -/
def multi_stage_denoising (B : DSPBackend) (sqrtFn logFn : ℚ → ℚ)
    (kern : ℕ → ℕ → List ℚ) (sampleRate : ℕ) (x : List ℚ) : Option (List ℚ) := do
  let s1 ← reduce_noise_standard B logFn sampleRate x
  let s2 ← reduce_noise_wavelet sqrtFn kern sampleRate s1
  let mask ← detect_silence logFn sampleRate x
  pure ((List.range x.length).map (fun j =>
    if mask.getD j false then (9 / 10) * s2.getD j 0
    else (6 / 10) * s2.getD j 0 + (4 / 10) * x.getD j 0))

/-- `NoiseReducer.enhanced_multi_stage_denoising` (noise_reducer.py:169-201).
With `voice_preserve=True`: recompute the mask on the original input, apply
`0.9 * base` on silent samples and `0.7 * base + 0.3 * x` on voiced samples,
then smooth with `np.convolve(result, np.ones(w)/w, mode='same')` for
`w = int(0.01 * sr)` (`np.convolve` raises on an empty kernel, hence `none`
when `w = 0`).  With `voice_preserve=False`: return the multi-stage output
unchanged. -/
def enhanced_multi_stage_denoising (B : DSPBackend) (sqrtFn logFn : ℚ → ℚ)
    (kern : ℕ → ℕ → List ℚ) (sampleRate : ℕ) (x : List ℚ)
    (voicePreserve : Bool) : Option (List ℚ) := do
  let base ← multi_stage_denoising B sqrtFn logFn kern sampleRate x
  if voicePreserve then do
    let mask ← detect_silence logFn sampleRate x
    let result := (List.range x.length).map (fun j =>
      if mask.getD j false then (9 / 10) * base.getD j 0
      else (7 / 10) * base.getD j 0 + (3 / 10) * x.getD j 0)
    let w := sampleRate / 100
    if w < 1 then none
    else pure (convolveSameNp result (List.replicate w ((w : ℚ))⁻¹))
  else pure base

end NoiseReducer

namespace AudioEvaluator

/-- The default standards table (evaluator.py:18-25). -/
structure ComplianceStandard where
  rms_db : ℚ
  peak_db : ℚ
  cv : ℚ
  snr : ℚ
  non_speech_frac : ℚ
  max_silence : ℚ
deriving DecidableEq

/-- `self.standards` from `AudioEvaluator.__init__`: rms_db -30, peak_db 0,
cv 0.5, snr 20, non-speech fraction 0.3, max silence 1.0 s. -/
def standards : ComplianceStandard :=
  { rms_db := -30, peak_db := 0, cv := 1 / 2, snr := 20,
    non_speech_frac := 3 / 10, max_silence := 1 }

/-- The metric record assembled by `evaluate_audio` (evaluator.py:156-165). -/
structure QualityMetrics where
  rms : ℚ
  rms_db : ℚ
  peak : ℚ
  peak_db : ℚ
  cv : ℚ
  snr : ℚ
  non_speech_frac : ℚ
  max_silence : ℚ
deriving DecidableEq

/-- `AudioEvaluator.calculate_rms` (evaluator.py:27-40):
`rms = np.sqrt(np.mean(x**2))`; `rms_db = 20*log10(rms)` when `rms > 0`, else
the `-100` sentinel. -/
def calculate_rms (sqrtFn logFn : ℚ → ℚ) (x : List ℚ) : ℚ × ℚ :=
  let rms := sqrtFn (meanSq x)
  (rms, if 0 < rms then 20 * logFn rms else -100)

/-- `AudioEvaluator.calculate_peak` (evaluator.py:42-55):
`peak = np.max(np.abs(x))`; `peak_db = 20*log10(peak)` when `peak > 0`, else
the `-100` sentinel.  (`np.max` raises on empty input; `evaluate_audio` guards.) -/
def calculate_peak (logFn : ℚ → ℚ) (x : List ℚ) : ℚ × ℚ :=
  let pk := listMax (x.map (fun v => |v|))
  (pk, if 0 < pk then 20 * logFn pk else -100)

/-- `AudioEvaluator.calculate_cv` (evaluator.py:57-72):
`np.std(|x|) / np.mean(|x|)` when the mean of `|x|` is positive, else the
sentinel `1.0`.  `np.std` is the population standard deviation
`sqrt(mean((y - mean y)^2))`. -/
def calculate_cv (sqrtFn : ℚ → ℚ) (x : List ℚ) : ℚ :=
  let ad := x.map (fun v => |v|)
  let m := qmean ad
  if 0 < m then sqrtFn (qmean (ad.map (fun v => (v - m) ^ 2))) / m else 1

/-- `AudioEvaluator.estimate_snr` (evaluator.py:74-88):
`10*log10(signal_power / noise_power)` with `noise = x - mean(x)`, or the
`100` dB sentinel when the noise power is zero. -/
def estimate_snr (logFn : ℚ → ℚ) (x : List ℚ) : ℚ :=
  let signalPower := qmean (x.map (fun s => s ^ 2))
  let noise := x.map (fun s => s - qmean x)
  let noisePower := qmean (noise.map (fun s => s ^ 2))
  if 0 < noisePower then 10 * logFn (signalPower / noisePower) else 100

/-- The longest silent frame run (evaluator.py:117-129): running counter,
flushed into the maximum on every non-silent frame and once after the loop. -/
def maxSilentRun (sf : List Bool) : ℕ :=
  let p := sf.foldl (fun p b => if b then (p.1, p.2 + 1) else (max p.1 p.2, 0)) (0, 0)
  max p.1 p.2

/-- `AudioEvaluator.detect_silence` (evaluator.py:90-134): frame-level silence
flags (20 ms frames, 10 ms hop, `amplitude_to_db` relative to the maximum,
default threshold -45 dB), the fraction of silent frames, and the longest
silent run converted to seconds via `run * hop_length / sr`. -/
def detect_silence (logFn : ℚ → ℚ) (x : List ℚ) (sr : ℕ) (thresholdDb : ℚ) :
    Option (ℚ × ℚ) :=
  (silenceFrames logFn x sr thresholdDb).map (fun sf =>
    let nsf := ((sf.filter id).length : ℚ) / (sf.length : ℚ)
    (nsf, (maxSilentRun sf : ℚ) * (hopLen sr : ℚ) / (sr : ℚ)))

/-- The compliance conjunction (evaluator.py:168-175): six non-strict boundary
comparisons against the standards. -/
def compliantOf (std : ComplianceStandard) (m : QualityMetrics) : Bool :=
  decide (std.rms_db ≤ m.rms_db) && decide (m.peak_db ≤ std.peak_db) &&
    decide (m.cv ≤ std.cv) && decide (std.snr ≤ m.snr) &&
    decide (m.non_speech_frac ≤ std.non_speech_frac) &&
    decide (m.max_silence ≤ std.max_silence)

/-- `AudioEvaluator.evaluate_audio` (evaluator.py:136-177): compute the metric
record and the compliance verdict.  On an empty buffer `np.max` raises inside
`calculate_peak` (hence `none`); an invalid sample rate propagates the framing
failure from `detect_silence`. -/
def evaluate_audio (sqrtFn logFn : ℚ → ℚ) (x : List ℚ) (sr : ℕ) :
    Option (QualityMetrics × Bool) :=
  match x with
  | [] => none
  | _ :: _ =>
    (detect_silence logFn x sr (-45)).map (fun pr =>
      let m : QualityMetrics :=
        { rms := (calculate_rms sqrtFn logFn x).1
          rms_db := (calculate_rms sqrtFn logFn x).2
          peak := (calculate_peak logFn x).1
          peak_db := (calculate_peak logFn x).2
          cv := calculate_cv sqrtFn x
          snr := estimate_snr logFn x
          non_speech_frac := pr.1
          max_silence := pr.2 }
      (m, compliantOf standards m))

end AudioEvaluator

/-- Modelled from the spec (§4.5): the boxcar moving-average smoothing filter,
"same length as input" — the central `len(l)` samples of the convolution with
`ones(w)/w`. -/
def smoothSpec (w : ℕ) (l : List ℚ) : List ℚ :=
  ((fullConv l (List.replicate w ((w : ℚ))⁻¹)).drop ((w - 1) / 2)).take l.length

/-- Modelled from the spec (§4.5), for the refinement claim C9: run the
multi-stage denoiser to get `base`, recompute the silence mask on the original
input, blend `0.9 * base` on silent samples and `0.7 * base + 0.3 * original`
on voiced samples, then apply the 10 ms boxcar smoothing over the entire
result. -/
def enhancedSpecTrue (B : DSPBackend) (sqrtFn logFn : ℚ → ℚ)
    (kern : ℕ → ℕ → List ℚ) (sr : ℕ) (x : List ℚ) : Option (List ℚ) := do
  let base ← NoiseReducer.multi_stage_denoising B sqrtFn logFn kern sr x
  let mask ← NoiseReducer.detect_silence logFn sr x
  let blended := List.zipWith
    (fun (p : ℚ × Bool) o => if p.2 then (9 / 10) * p.1 else (7 / 10) * p.1 + (3 / 10) * o)
    (base.zip mask) x
  pure (smoothSpec (hopLen sr) blended)

/-- Claim C5's stated frame dB conversion: `10*log10(energy/max_energy)`, with
a `-100` sentinel when the buffer is entirely silent. -/
def specFrameDb (logFn : ℚ → ℚ) (e emax : ℚ) : ℚ :=
  if emax = 0 then -100 else 10 * logFn (e / emax)

/-- Claim C5's stated frame silence decision: the C5 dB value strictly below
the -45 dB threshold. -/
def specFrameSilent (logFn : ℚ → ℚ) (e emax : ℚ) : Bool :=
  decide (specFrameDb logFn e emax < -45)

/-- A concrete DSP backend instance used to instantiate witnesses. -/
def demoBackend : DSPBackend where
  stftMag := fun x _ _ => [x.map (fun v => |v|)]
  reconstruct := fun _ _ _ len => List.replicate len 0
  lowpass := fun x => x
  reconstruct_len := fun _ _ _ _ => by simp
  lowpass_len := fun _ => rfl

/-- A concrete wavelet kernel (constant ones) used to instantiate witnesses. -/
def demoKern : ℕ → ℕ → List ℚ := fun n _ => List.replicate n 1

/-- A concrete delta kernel (`[1, 0, …, 0]`) used to instantiate witnesses. -/
def waveKern : ℕ → ℕ → List ℚ := fun n _ => 1 :: List.replicate (n - 1) 0

/-- A concrete demo buffer (frame energies 1, 10000, 10000 at `sr = 100`). -/
def demoBuf : List ℚ := [1, 0, 100, 0]

/-- A concrete `np.log10` oracle, exact at the points demo computations use
(`log10 1 = 0`, `log10 10^8 = 8`). -/
def demoLog : ℚ → ℚ := fun v => if v = 100000000 then 8 else 0

/-- A concrete `np.log10` oracle for the C5 counterexample, exact at `1`,
`10^8` and `10^(-4)`. -/
def c5log : ℚ → ℚ :=
  fun v => if v = 100000000 then 8 else if v = 1 / 10000 then -4 else 0

/-- The zero `np.log10` oracle (exact at `1`; the computations applying it only
evaluate it at `1`). -/
def zlog : ℚ → ℚ := fun _ => 0

/-- A concrete `np.sqrt` oracle, exact at the points demo computations use
(`sqrt 4 = 2`, `sqrt (1/4) = 1/2`, `sqrt 0 = 0`). -/
def demoSqrt : ℚ → ℚ := fun v => if v = 4 then 2 else if v = 1 / 4 then 1 / 2 else 0

theorem qmean_nonneg (l : List ℚ) (h : ∀ v ∈ l, 0 ≤ v) : 0 ≤ qmean l :=
  div_nonneg (List.sum_nonneg h) (by positivity)

theorem meanSq_nonneg (l : List ℚ) : 0 ≤ meanSq l := by
  refine qmean_nonneg _ ?_
  intro v hv
  obtain ⟨s, _, rfl⟩ := List.mem_map.mp hv
  positivity

theorem listMax_le (l : List ℚ) (c : ℚ) (h0 : 0 ≤ c) (h : ∀ v ∈ l, v ≤ c) :
    listMax l ≤ c := by
  cases l with
  | nil => simpa [listMax]
  | cons a t =>
    simp only [listMax]
    have key : ∀ (t : List ℚ) (a : ℚ), a ≤ c → (∀ v ∈ t, v ≤ c) → t.foldl max a ≤ c := by
      intro t
      induction t with
      | nil => intro a ha _; simpa
      | cons b t ih =>
        intro a ha hall
        simp only [List.foldl_cons]
        exact ih _ (max_le ha (hall b (List.mem_cons_self _ _)))
          (fun v hv => hall v (List.mem_cons_of_mem _ hv))
    exact key t a (h a (List.mem_cons_self _ _)) (fun v hv => h v (List.mem_cons_of_mem _ hv))

theorem foldlMax_le_of_mem (t : List ℚ) : ∀ (a v : ℚ), v ≤ a ∨ v ∈ t → v ≤ t.foldl max a := by
  induction t with
  | nil =>
    intro a v h
    rcases h with h | h
    · simpa
    · cases h
  | cons b t ih =>
    intro a v h
    simp only [List.foldl_cons]
    rcases h with h | h
    · exact ih (max a b) v (Or.inl (h.trans (le_max_left a b)))
    · rcases List.mem_cons.mp h with rfl | h
      · exact ih (max a v) v (Or.inl (le_max_right a v))
      · exact ih (max a b) v (Or.inr h)

theorem le_listMax (l : List ℚ) (v : ℚ) (hv : v ∈ l) : v ≤ listMax l := by
  cases l with
  | nil => cases hv
  | cons a t =>
    simp only [listMax]
    rcases List.mem_cons.mp hv with rfl | h
    · exact foldlMax_le_of_mem t v v (Or.inl (le_refl v))
    · exact foldlMax_le_of_mem t a v (Or.inr h)

theorem listMax_nonneg (l : List ℚ) (h : ∀ v ∈ l, 0 ≤ v) : 0 ≤ listMax l := by
  cases l with
  | nil => simp [listMax]
  | cons a t =>
    exact le_trans (h a (List.mem_cons_self _ _)) (le_listMax _ a (List.mem_cons_self _ _))

theorem getD_map_zero (f : ℚ → ℚ) (hf : f 0 = 0) (l : List ℚ) (j : ℕ) :
    (l.map f).getD j 0 = f (l.getD j 0) := by
  rcases Nat.lt_or_ge j l.length with h | h
  · rw [List.getD_eq_getElem _ _ (by simpa), List.getD_eq_getElem _ _ h, List.getElem_map]
  · rw [List.getD_eq_default _ _ (by simpa), List.getD_eq_default _ _ h, hf]

theorem getD_map_nil (g : List ℚ → List ℚ) (hg : g [] = []) (m : List (List ℚ)) (i : ℕ) :
    (m.map g).getD i [] = g (m.getD i []) := by
  rcases Nat.lt_or_ge i m.length with h | h
  · rw [List.getD_eq_getElem _ _ (by simpa), List.getD_eq_getElem _ _ h, List.getElem_map]
  · rw [List.getD_eq_default _ _ (by simpa), List.getD_eq_default _ _ h, hg]

theorem hopLen_pos (sr : ℕ) (h : 100 ≤ sr) : 1 ≤ hopLen sr :=
  (Nat.one_le_div_iff (by norm_num)).mpr h

theorem frameLen_pos (sr : ℕ) (h : 100 ≤ sr) : 1 ≤ frameLen sr :=
  le_trans (by norm_num) (Nat.div_le_div_right (c := 50) h)

theorem hopLen_le_frameLen (sr : ℕ) : hopLen sr ≤ frameLen sr :=
  Nat.div_le_div_left (by norm_num) (by norm_num)

theorem frameModel_eq_some (x : List ℚ) (fl hop : ℕ) (h1 : 1 ≤ hop)
    (h2 : fl ≤ x.length) :
    frameModel x fl hop = some ((List.range (1 + (x.length - fl) / hop)).map
      (fun i => (x.drop (i * hop)).take fl)) := by
  simp only [frameModel, if_neg (by omega : ¬ hop < 1), if_neg (by omega : ¬ x.length < fl)]

theorem sum_sq_le (l : List ℚ) (c : ℚ) (h : ∀ v ∈ l, |v| ≤ c) :
    (l.map (fun s => s ^ 2)).sum ≤ l.length * c ^ 2 := by
  induction l with
  | nil => simp
  | cons a t ih =>
    simp only [List.map_cons, List.sum_cons, List.length_cons]
    have ha : a ^ 2 ≤ c ^ 2 := by
      have := h a (List.mem_cons_self _ _)
      nlinarith [abs_nonneg a, sq_abs a]
    have ht := ih (fun v hv => h v (List.mem_cons_of_mem _ hv))
    push_cast
    nlinarith

theorem sum_sq_nonneg (l : List ℚ) : 0 ≤ (l.map (fun s => s ^ 2)).sum := by
  refine List.sum_nonneg ?_
  intro v hv
  obtain ⟨s, _, rfl⟩ := List.mem_map.mp hv
  positivity

theorem frame_energy_bounds (x : List ℚ) (c : ℚ) (hAmp : ∀ v ∈ x, |v| ≤ c)
    (k fl hop : ℕ) (f : List ℚ)
    (hf : f ∈ (List.range k).map (fun i => (x.drop (i * hop)).take fl)) :
    0 ≤ (f.map (fun s => s ^ 2)).sum ∧ (f.map (fun s => s ^ 2)).sum ≤ fl * c ^ 2 := by
  obtain ⟨i, _, rfl⟩ := List.mem_map.mp hf
  set f := (x.drop (i * hop)).take fl with hfdef
  have hsub : ∀ v ∈ f, v ∈ x := by
    intro v hv
    exact List.drop_subset _ _ (List.take_subset _ _ hv)
  have hlen : f.length ≤ fl := by
    simp [hfdef, List.length_take]
  refine ⟨sum_sq_nonneg f, le_trans (sum_sq_le f c (fun v hv => hAmp v (hsub v hv))) ?_⟩
  have : (f.length : ℚ) ≤ (fl : ℚ) := by exact_mod_cast hlen
  nlinarith [sq_nonneg c, this]

theorem amplitudeToDb_small (logFn : ℚ → ℚ) (l : List ℚ)
    (h : ∀ e ∈ l, |e| ≤ 1 / 1000000) :
    amplitudeToDb logFn l = l.map (fun _ => 0) := by
  simp only [amplitudeToDb]
  have hmag : ∀ m ∈ l.map (fun v => |v|), 0 ≤ m ∧ m ≤ 1 / 1000000 := by
    intro m hm
    obtain ⟨e, he, rfl⟩ := List.mem_map.mp hm
    exact ⟨abs_nonneg e, h e he⟩
  have hrefnn : 0 ≤ listMax (l.map fun v => |v|) :=
    listMax_nonneg _ (fun v hv => (hmag v hv).1)
  have href : listMax (l.map fun v => |v|) ≤ 1 / 1000000 :=
    listMax_le _ _ (by norm_num) (fun v hv => (hmag v hv).2)
  have hrefsq : max (1 / 10000000000) ((listMax (l.map fun v => |v|)) ^ 2) =
      1 / 10000000000 := by
    refine max_eq_left ?_
    nlinarith
  have hspec : (l.map fun v => |v|).map (fun m =>
        10 * logFn (max (1 / 10000000000) (m ^ 2)) -
          10 * logFn (max (1 / 10000000000) ((listMax (l.map fun v => |v|)) ^ 2))) =
      (l.map fun v => |v|).map (fun _ => (0 : ℚ)) := by
    refine List.map_congr_left ?_
    intro m hm
    have h1 := (hmag m hm).1
    have h2 := (hmag m hm).2
    have hmsq : max (1 / 10000000000) (m ^ 2) = 1 / 10000000000 := by
      refine max_eq_left ?_
      nlinarith
    rw [hmsq, hrefsq, sub_self]
  rw [hspec]
  have hzero : ∀ v ∈ (l.map fun v => |v|).map (fun _ => (0 : ℚ)), v = 0 := by
    intro v hv
    obtain ⟨_, _, rfl⟩ := List.mem_map.mp hv
    rfl
  have hmax0 : listMax ((l.map fun v => |v|).map (fun _ => (0 : ℚ))) = 0 :=
    le_antisymm (listMax_le _ _ (le_refl 0) (fun v hv => le_of_eq (hzero v hv)))
      (listMax_nonneg _ (fun v hv => ge_of_eq (hzero v hv)))
  rw [hmax0]
  simp only [List.map_map]
  refine List.map_congr_left ?_
  intro v _
  norm_num

theorem getD_replicate_false (k i : ℕ) :
    (List.replicate k false).getD i false = false := by
  rcases Nat.lt_or_ge i k with h | h
  · rw [List.getD_eq_getElem _ _ (by simpa), List.getElem_replicate]
  · rw [List.getD_eq_default _ _ (by simpa)]

theorem silenceFrames_quiet (logFn : ℚ → ℚ) (x : List ℚ) (sr : ℕ) (c : ℚ)
    (h1 : 100 ≤ sr) (h2 : frameLen sr ≤ x.length)
    (hAmp : ∀ v ∈ x, |v| ≤ c)
    (hcb : (frameLen sr : ℚ) * c ^ 2 ≤ 1 / 1000000) :
    silenceFrames logFn x sr (-45) =
      some (List.replicate (1 + (x.length - frameLen sr) / hopLen sr) false) := by
  rw [silenceFrames, frameModel_eq_some x _ _ (hopLen_pos sr h1) h2]
  simp only [Option.map_some']
  congr 1
  have hE : ∀ e ∈ ((List.range (1 + (x.length - frameLen sr) / hopLen sr)).map
      (fun i => (x.drop (i * hopLen sr)).take (frameLen sr))).map
        (fun f => (f.map (fun s => s ^ 2)).sum), |e| ≤ 1 / 1000000 := by
    intro e he
    obtain ⟨f, hf, rfl⟩ := List.mem_map.mp he
    obtain ⟨h0, hb⟩ := frame_energy_bounds x c hAmp _ _ _ f hf
    rw [abs_of_nonneg h0]
    exact le_trans hb hcb
  rw [amplitudeToDb_small logFn _ hE]
  simp only [List.map_map]
  have hconst : ∀ i ∈ List.range (1 + (x.length - frameLen sr) / hopLen sr),
      ((fun d => decide (d < (-45 : ℚ))) ∘ (fun _ => (0 : ℚ)) ∘
        (fun f => (List.map (fun s => s ^ 2) f).sum) ∘
          (fun i => List.take (frameLen sr) (List.drop (i * hopLen sr) x))) i = false := by
    intro i _
    simp only [Function.comp]
    norm_num
  rw [List.map_congr_left hconst]
  simp [List.map_const']

theorem detect_silence_quiet (logFn : ℚ → ℚ) (sr : ℕ) (x : List ℚ) (c : ℚ)
    (h1 : 100 ≤ sr) (h2 : frameLen sr ≤ x.length)
    (hAmp : ∀ v ∈ x, |v| ≤ c)
    (hcb : (frameLen sr : ℚ) * c ^ 2 ≤ 1 / 1000000) :
    NoiseReducer.detect_silence logFn sr x = some (List.replicate x.length false) := by
  rw [NoiseReducer.detect_silence, silenceFrames_quiet logFn x sr c h1 h2 hAmp hcb]
  simp only [Option.map_some']
  congr 1
  have hfalse : ∀ j ∈ List.range x.length,
      ((List.range (List.replicate (1 + (x.length - frameLen sr) / hopLen sr) false).length).any
        (fun i => (List.replicate (1 + (x.length - frameLen sr) / hopLen sr) false).getD i false &&
          decide (i * hopLen sr ≤ j) && decide (j < i * hopLen sr + frameLen sr))) = false := by
    intro j _
    rw [List.any_eq_false]
    intro i _
    rw [getD_replicate_false]
    simp
  rw [List.map_congr_left hfalse]
  simp [List.map_const']

theorem maxSilentRun_replicate_false (m : ℕ) :
    AudioEvaluator.maxSilentRun (List.replicate m false) = 0 := by
  have key : (List.replicate m false).foldl
      (fun p b => if b then (p.1, p.2 + 1) else (max p.1 p.2, 0)) (0, 0) = (0, 0) := by
    induction m with
    | zero => rfl
    | succ n ih => rw [List.replicate_succ, List.foldl_cons]; simpa using ih
  rw [AudioEvaluator.maxSilentRun, key]
  rfl

theorem eval_detect_silence_quiet (logFn : ℚ → ℚ) (x : List ℚ) (sr : ℕ) (c : ℚ)
    (h1 : 100 ≤ sr) (h2 : frameLen sr ≤ x.length)
    (hAmp : ∀ v ∈ x, |v| ≤ c)
    (hcb : (frameLen sr : ℚ) * c ^ 2 ≤ 1 / 1000000) :
    AudioEvaluator.detect_silence logFn x sr (-45) = some (0, 0) := by
  rw [AudioEvaluator.detect_silence, silenceFrames_quiet logFn x sr c h1 h2 hAmp hcb]
  simp only [Option.map_some']
  congr 1
  rw [maxSilentRun_replicate_false]
  simp [List.filter_replicate]

theorem fullConv_length (a v : List ℚ) :
    (fullConv a v).length = a.length + v.length - 1 := by
  simp [fullConv]

theorem convolveSameSci_length (a v : List ℚ) (hv : 1 ≤ v.length) :
    (convolveSameSci a v).length = a.length := by
  simp only [convolveSameSci, List.length_take, List.length_drop, fullConv_length]
  omega

theorem convolveSameNp_length (a v : List ℚ) (hv : 1 ≤ v.length)
    (hle : v.length ≤ a.length) :
    (convolveSameNp a v).length = a.length := by
  simp only [convolveSameNp, List.length_take, List.length_drop, fullConv_length]
  omega

theorem cwtModel_row_length (kern : ℕ → ℕ → List ℚ) (x : List ℚ)
    (hk : ∀ n w, 1 ≤ n → (kern n w).length = n) (hx : 1 ≤ x.length) :
    ∀ row ∈ NoiseReducer.cwtModel kern x, row.length = x.length := by
  intro row hrow
  obtain ⟨i, _, rfl⟩ := List.mem_map.mp hrow
  have hn : 1 ≤ min (10 * (i + 1)) x.length := by omega
  refine convolveSameSci_length x _ ?_
  rw [List.length_reverse, hk _ _ hn]
  exact hn

theorem cwtModel_ne_nil (kern : ℕ → ℕ → List ℚ) (x : List ℚ) :
    NoiseReducer.cwtModel kern x ≠ [] := by
  have : (NoiseReducer.cwtModel kern x).length = 30 := by
    simp [NoiseReducer.cwtModel]
  intro h
  rw [h] at this
  simp at this

theorem waveletDenoisedRaw_length (kern : ℕ → ℕ → List ℚ) (x : List ℚ)
    (hk : ∀ n w, 1 ≤ n → (kern n w).length = n) (hx : 1 ≤ x.length) :
    (NoiseReducer.waveletDenoisedRaw kern x).length = x.length := by
  obtain ⟨r, rest, hcons⟩ := List.exists_cons_of_ne_nil (cwtModel_ne_nil kern x)
  have hr : r.length = x.length :=
    cwtModel_row_length kern x hk hx r (by rw [hcons]; exact List.mem_cons_self _ _)
  rw [NoiseReducer.waveletDenoisedRaw, NoiseReducer.meanAxis0, NoiseReducer.thresholdCoeffs,
    hcons]
  simp [hr]

theorem waveletNormalized_length (kern : ℕ → ℕ → List ℚ) (x : List ℚ)
    (hk : ∀ n w, 1 ≤ n → (kern n w).length = n) (hx : 1 ≤ x.length) :
    (NoiseReducer.waveletNormalized kern x).length = x.length := by
  rw [NoiseReducer.waveletNormalized]
  split
  · simp [waveletDenoisedRaw_length kern x hk hx]
  · exact waveletDenoisedRaw_length kern x hk hx

theorem reduce_noise_wavelet_eq (sqrtFn : ℚ → ℚ) (kern : ℕ → ℕ → List ℚ)
    (sr : ℕ) (x : List ℚ) (hx : x ≠ []) :
    NoiseReducer.reduce_noise_wavelet sqrtFn kern sr x = some
      (if 0 < sqrtFn (meanSq (NoiseReducer.waveletNormalized kern x))
        then (NoiseReducer.waveletNormalized kern x).map
          (fun s => s * (sqrtFn (meanSq x) /
            sqrtFn (meanSq (NoiseReducer.waveletNormalized kern x))))
        else NoiseReducer.waveletNormalized kern x) := by
  cases x with
  | nil => exact absurd rfl hx
  | cons a t => rfl

theorem reduce_noise_wavelet_length (sqrtFn : ℚ → ℚ) (kern : ℕ → ℕ → List ℚ)
    (sr : ℕ) (x : List ℚ) (hk : ∀ n w, 1 ≤ n → (kern n w).length = n)
    (hx : 1 ≤ x.length) :
    (NoiseReducer.reduce_noise_wavelet sqrtFn kern sr x).map List.length =
      some x.length := by
  rw [reduce_noise_wavelet_eq sqrtFn kern sr x (by intro h; rw [h] at hx; simp at hx)]
  simp only [Option.map_some']
  congr 1
  split
  · simp [waveletNormalized_length kern x hk hx]
  · exact waveletNormalized_length kern x hk hx

theorem detect_silence_eq_some (logFn : ℚ → ℚ) (sr : ℕ) (x : List ℚ)
    (h1 : 100 ≤ sr) (h2 : frameLen sr ≤ x.length) :
    ∃ mask, NoiseReducer.detect_silence logFn sr x = some mask ∧
      mask.length = x.length := by
  rw [NoiseReducer.detect_silence, silenceFrames,
    frameModel_eq_some x _ _ (hopLen_pos sr h1) h2]
  exact ⟨_, rfl, by simp⟩

theorem reduce_noise_standard_some (B : DSPBackend) (logFn : ℚ → ℚ) (sr : ℕ)
    (x : List ℚ) (h1 : 100 ≤ sr) (h2 : frameLen sr ≤ x.length) :
    ∃ out, NoiseReducer.reduce_noise_standard B logFn sr x = some out ∧
      out.length = x.length := by
  obtain ⟨mask, hm, _⟩ := detect_silence_eq_some logFn sr x h1 h2
  rw [NoiseReducer.reduce_noise_standard, hm]
  simp only [Option.map_some']
  refine ⟨_, rfl, ?_⟩
  by_cases h : mask.any id
  · simp [h, B.reconstruct_len]
  · simp [h, B.lowpass_len]

theorem multi_stage_eq (B : DSPBackend) (sqrtFn logFn : ℚ → ℚ)
    (kern : ℕ → ℕ → List ℚ) (sr : ℕ) (x s1 s2 : List ℚ) (mask : List Bool)
    (h1 : NoiseReducer.reduce_noise_standard B logFn sr x = some s1)
    (h2 : NoiseReducer.reduce_noise_wavelet sqrtFn kern sr s1 = some s2)
    (h3 : NoiseReducer.detect_silence logFn sr x = some mask) :
    NoiseReducer.multi_stage_denoising B sqrtFn logFn kern sr x =
      some ((List.range x.length).map (fun j =>
        if mask.getD j false then (9 / 10) * s2.getD j 0
        else (6 / 10) * s2.getD j 0 + (4 / 10) * x.getD j 0)) := by
  simp [NoiseReducer.multi_stage_denoising, h1, h2, h3]

theorem multi_stage_some (B : DSPBackend) (sqrtFn logFn : ℚ → ℚ)
    (kern : ℕ → ℕ → List ℚ) (sr : ℕ) (x : List ℚ)
    (hk : ∀ n w, 1 ≤ n → (kern n w).length = n)
    (h1 : 100 ≤ sr) (h2 : frameLen sr ≤ x.length) :
    ∃ out, NoiseReducer.multi_stage_denoising B sqrtFn logFn kern sr x = some out ∧
      out.length = x.length := by
  obtain ⟨s1, hs1, hl1⟩ := reduce_noise_standard_some B logFn sr x h1 h2
  have hs1ne : s1 ≠ [] := by
    intro h
    rw [h] at hl1
    have := frameLen_pos sr h1
    simp at hl1
    omega
  have hw := reduce_noise_wavelet_eq sqrtFn kern sr s1 hs1ne
  obtain ⟨mask, hm, _⟩ := detect_silence_eq_some logFn sr x h1 h2
  refine ⟨_, multi_stage_eq B sqrtFn logFn kern sr x s1 _ mask hs1 hw hm, by simp⟩

theorem enhanced_false_eq (B : DSPBackend) (sqrtFn logFn : ℚ → ℚ)
    (kern : ℕ → ℕ → List ℚ) (sr : ℕ) (x : List ℚ) :
    NoiseReducer.enhanced_multi_stage_denoising B sqrtFn logFn kern sr x false =
      NoiseReducer.multi_stage_denoising B sqrtFn logFn kern sr x := by
  cases h : NoiseReducer.multi_stage_denoising B sqrtFn logFn kern sr x with
  | none => simp [NoiseReducer.enhanced_multi_stage_denoising, h]
  | some base => simp [NoiseReducer.enhanced_multi_stage_denoising, h]

theorem enhanced_true_eq (B : DSPBackend) (sqrtFn logFn : ℚ → ℚ)
    (kern : ℕ → ℕ → List ℚ) (sr : ℕ) (x base : List ℚ) (mask : List Bool)
    (hb : NoiseReducer.multi_stage_denoising B sqrtFn logFn kern sr x = some base)
    (hm : NoiseReducer.detect_silence logFn sr x = some mask)
    (hw : 1 ≤ sr / 100) :
    NoiseReducer.enhanced_multi_stage_denoising B sqrtFn logFn kern sr x true =
      some (convolveSameNp ((List.range x.length).map (fun j =>
        if mask.getD j false then (9 / 10) * base.getD j 0
        else (7 / 10) * base.getD j 0 + (3 / 10) * x.getD j 0))
        (List.replicate (sr / 100) ((sr / 100 : ℕ) : ℚ)⁻¹)) := by
  simp [NoiseReducer.enhanced_multi_stage_denoising, hb, hm, Nat.not_lt.mpr hw]

/-- Claim C1: every denoiser (`reduce_noise_standard`, `reduce_noise_wavelet`,
`multi_stage_denoising`, `enhanced_multi_stage_denoising` with voice
preservation on and off) maps a valid input buffer (at least one 20 ms frame
long, sample rate ≥ 100 so the hop is positive) to an output with exactly the
input's number of samples, in every branch.  The sample rate is caller state
that none of these methods ever writes, so it is preserved trivially. -/
theorem c1_length_preservation (B : DSPBackend) (sqrtFn logFn : ℚ → ℚ)
    (kern : ℕ → ℕ → List ℚ) (sr : ℕ) (x : List ℚ)
    (hk : ∀ n w, 1 ≤ n → (kern n w).length = n)
    (hsr : 100 ≤ sr) (hx : frameLen sr ≤ x.length) :
    (NoiseReducer.reduce_noise_standard B logFn sr x).map List.length =
      some x.length ∧
    (NoiseReducer.reduce_noise_wavelet sqrtFn kern sr x).map List.length =
      some x.length ∧
    (NoiseReducer.multi_stage_denoising B sqrtFn logFn kern sr x).map List.length =
      some x.length ∧
    (NoiseReducer.enhanced_multi_stage_denoising B sqrtFn logFn kern sr x
      true).map List.length = some x.length ∧
    (NoiseReducer.enhanced_multi_stage_denoising B sqrtFn logFn kern sr x
      false).map List.length = some x.length := by
  have hx1 : 1 ≤ x.length := le_trans (frameLen_pos sr hsr) hx
  obtain ⟨o1, ho1, hl1⟩ := reduce_noise_standard_some B logFn sr x hsr hx
  obtain ⟨o3, ho3, hl3⟩ := multi_stage_some B sqrtFn logFn kern sr x hk hsr hx
  obtain ⟨mask, hm, hlm⟩ := detect_silence_eq_some logFn sr x hsr hx
  refine ⟨by rw [ho1]; simp [hl1],
    reduce_noise_wavelet_length sqrtFn kern sr x hk hx1,
    by rw [ho3]; simp [hl3], ?_,
    by rw [enhanced_false_eq, ho3]; simp [hl3]⟩
  rw [enhanced_true_eq B sqrtFn logFn kern sr x o3 mask ho3 hm (hopLen_pos sr hsr)]
  simp only [Option.map_some', Option.some.injEq]
  rw [convolveSameNp_length]
  · simp
  · simpa using hopLen_pos sr hsr
  · simp only [List.length_replicate, List.length_map, List.length_range]
    exact le_trans (hopLen_le_frameLen sr) hx

/-- Witness for C1 at a concrete backend, kernel, oracles, sample rate 100 and
a four-sample buffer. -/
theorem c1_length_preservation_witness :
    (NoiseReducer.reduce_noise_standard demoBackend demoLog 100 demoBuf).map
      List.length = some demoBuf.length ∧
    (NoiseReducer.reduce_noise_wavelet demoSqrt demoKern 100 demoBuf).map
      List.length = some demoBuf.length ∧
    (NoiseReducer.multi_stage_denoising demoBackend demoSqrt demoLog demoKern 100
      demoBuf).map List.length = some demoBuf.length ∧
    (NoiseReducer.enhanced_multi_stage_denoising demoBackend demoSqrt demoLog
      demoKern 100 demoBuf true).map List.length = some demoBuf.length ∧
    (NoiseReducer.enhanced_multi_stage_denoising demoBackend demoSqrt demoLog
      demoKern 100 demoBuf false).map List.length = some demoBuf.length :=
  c1_length_preservation demoBackend demoSqrt demoLog demoKern 100 demoBuf
    (fun n w _ => by simp [demoKern]) (by norm_num) (by norm_num [frameLen, demoBuf])

/-- Claim C2: the compliance verdict returned by `evaluate_audio` is exactly
the conjunction of the six non-strict boundary comparisons against the
standards (rms_db ≥ -30, peak_db ≤ 0, cv ≤ 0.5, snr ≥ 20,
non-speech fraction ≤ 0.3, max silence ≤ 1.0 s); metrics with
`snr = 20.0` satisfy the SNR criterion (it drops out of the conjunction),
while metrics with `snr = 19.999` fail the verdict independently of every
other metric. -/
theorem c2_compliance_conjunction :
    (∀ (sqrtFn logFn : ℚ → ℚ) (x : List ℚ) (sr : ℕ)
        (m : AudioEvaluator.QualityMetrics) (c : Bool),
        AudioEvaluator.evaluate_audio sqrtFn logFn x sr = some (m, c) →
        c = AudioEvaluator.compliantOf AudioEvaluator.standards m) ∧
    (∀ m : AudioEvaluator.QualityMetrics, m.snr = 20 →
        AudioEvaluator.compliantOf AudioEvaluator.standards m =
          (decide (-30 ≤ m.rms_db) && decide (m.peak_db ≤ 0) &&
            decide (m.cv ≤ 1 / 2) && decide (m.non_speech_frac ≤ 3 / 10) &&
            decide (m.max_silence ≤ 1))) ∧
    (∀ m : AudioEvaluator.QualityMetrics, m.snr = 19999 / 1000 →
        AudioEvaluator.compliantOf AudioEvaluator.standards m = false) := by
  refine ⟨?_, ?_, ?_⟩
  · intro sqrtFn logFn x sr m c h
    cases x with
    | nil => simp [AudioEvaluator.evaluate_audio] at h
    | cons a t =>
      simp only [AudioEvaluator.evaluate_audio] at h
      obtain ⟨pr, _, heq⟩ := Option.map_eq_some'.mp h
      cases heq
      rfl
  · intro m hsnr
    simp only [AudioEvaluator.compliantOf, AudioEvaluator.standards, hsnr]
    have h20 : decide ((20 : ℚ) ≤ 20) = true := by decide
    rw [h20, Bool.and_true]
  · intro m hsnr
    simp only [AudioEvaluator.compliantOf, AudioEvaluator.standards, hsnr]
    have h19 : decide ((20 : ℚ) ≤ 19999 / 1000) = false := by norm_num
    rw [h19]
    simp

/-- Witness for C2: a constant unit buffer is judged compliant, and its verdict
equals the six-fold conjunction; a metric record with `snr = 19.999` is
rejected regardless of its other (all-passing) fields. -/
theorem c2_compliance_conjunction_witness :
    true = AudioEvaluator.compliantOf AudioEvaluator.standards
      { rms := 1, rms_db := 0, peak := 1, peak_db := 0, cv := 0, snr := 100,
        non_speech_frac := 0, max_silence := 0 } ∧
    AudioEvaluator.compliantOf AudioEvaluator.standards
      { rms := 1, rms_db := 0, peak := 1, peak_db := 0, cv := 0,
        snr := 19999 / 1000, non_speech_frac := 0, max_silence := 0 } = false :=
  ⟨c2_compliance_conjunction.1 id zlog [1, 1, 1, 1] 100
      { rms := 1, rms_db := 0, peak := 1, peak_db := 0, cv := 0, snr := 100,
        non_speech_frac := 0, max_silence := 0 } true (by
      norm_num [AudioEvaluator.evaluate_audio, AudioEvaluator.detect_silence,
        AudioEvaluator.calculate_rms, AudioEvaluator.calculate_peak,
        AudioEvaluator.calculate_cv, AudioEvaluator.estimate_snr,
        AudioEvaluator.maxSilentRun, AudioEvaluator.compliantOf,
        AudioEvaluator.standards, silenceFrames, frameModel, frameLen, hopLen,
        amplitudeToDb, listMax, meanSq, qmean, zlog, List.range_succ]),
    c2_compliance_conjunction.2.2
      { rms := 1, rms_db := 0, peak := 1, peak_db := 0, cv := 0,
        snr := 19999 / 1000, non_speech_frac := 0, max_silence := 0 } rfl⟩

/-- Claim C3: in the spectral-subtraction branch of `reduce_noise_standard`,
every time-frequency bin of `spectralSubtract` equals
`max(magnitude - noise_profile, 0.01 * magnitude)`; consequently every new
magnitude is at least `0.01 *` the original magnitude and (because the noise
profile is a per-bin mean of non-negative magnitudes) at most the original
magnitude. -/
theorem c3_spectral_subtraction_bounds (stftM noiseMag : List (List ℚ))
    (h1 : ∀ row ∈ stftM, ∀ v ∈ row, 0 ≤ v)
    (h2 : ∀ row ∈ noiseMag, ∀ v ∈ row, 0 ≤ v)
    (i j : ℕ) (hi : i < stftM.length) (hin : i < noiseMag.length)
    (hj : j < (stftM.getD i []).length) :
    ((NoiseReducer.spectralSubtract stftM
        (NoiseReducer.noiseSpecOf noiseMag)).getD i []).getD j 0 =
      max ((stftM.getD i []).getD j 0 -
          (NoiseReducer.noiseSpecOf noiseMag).getD i 0)
        ((1 / 100) * (stftM.getD i []).getD j 0) ∧
    (1 / 100) * (stftM.getD i []).getD j 0 ≤
      ((NoiseReducer.spectralSubtract stftM
        (NoiseReducer.noiseSpecOf noiseMag)).getD i []).getD j 0 ∧
    ((NoiseReducer.spectralSubtract stftM
        (NoiseReducer.noiseSpecOf noiseMag)).getD i []).getD j 0 ≤
      (stftM.getD i []).getD j 0 := by
  have hin' : i < (NoiseReducer.noiseSpecOf noiseMag).length := by
    simpa [NoiseReducer.noiseSpecOf] using hin
  have hzlen : i < (NoiseReducer.spectralSubtract stftM
      (NoiseReducer.noiseSpecOf noiseMag)).length := by
    simp only [NoiseReducer.spectralSubtract, List.length_zipWith]
    omega
  have hrow : (NoiseReducer.spectralSubtract stftM
      (NoiseReducer.noiseSpecOf noiseMag)).getD i [] =
      (stftM.getD i []).map (fun mg =>
        max (mg - (NoiseReducer.noiseSpecOf noiseMag).getD i 0) ((1 / 100) * mg)) := by
    rw [List.getD_eq_getElem _ _ hzlen]
    simp only [NoiseReducer.spectralSubtract, List.getElem_zipWith]
    rw [List.getD_eq_getElem _ _ hi, List.getD_eq_getElem _ _ hin']
  have hj' : j < ((stftM.getD i []).map (fun mg =>
      max (mg - (NoiseReducer.noiseSpecOf noiseMag).getD i 0) ((1 / 100) * mg))).length := by
    simpa using hj
  have hentry : ((NoiseReducer.spectralSubtract stftM
      (NoiseReducer.noiseSpecOf noiseMag)).getD i []).getD j 0 =
      max ((stftM.getD i []).getD j 0 -
          (NoiseReducer.noiseSpecOf noiseMag).getD i 0)
        ((1 / 100) * (stftM.getD i []).getD j 0) := by
    rw [hrow, List.getD_eq_getElem _ _ hj', List.getElem_map,
      List.getD_eq_getElem _ _ hj]
  have hm : 0 ≤ (stftM.getD i []).getD j 0 := by
    rw [List.getD_eq_getElem _ _ hj]
    refine h1 _ ?_ _ (List.getElem_mem _)
    rw [List.getD_eq_getElem _ _ hi]
    exact List.getElem_mem _
  have hn : 0 ≤ (NoiseReducer.noiseSpecOf noiseMag).getD i 0 := by
    rw [List.getD_eq_getElem _ _ hin']
    simp only [NoiseReducer.noiseSpecOf, List.getElem_map]
    exact qmean_nonneg _ (h2 _ (List.getElem_mem _))
  refine ⟨hentry, ?_, ?_⟩
  · rw [hentry]
    exact le_max_right _ _
  · rw [hentry]
    refine max_le (by linarith) (by linarith)

/-- Witness for C3 at a concrete one-bin spectrogram (magnitude 2) and noise
spectrogram (`[4, 0]`, so the noise profile is 2): the masked magnitude is
`max(2 - 2, 0.02) = 1/50`, between `0.01 * 2` and `2`. -/
theorem c3_spectral_subtraction_bounds_witness :
    ((NoiseReducer.spectralSubtract [[2]]
        (NoiseReducer.noiseSpecOf [[4, 0]])).getD 0 []).getD 0 0 =
      max (([[ (2 : ℚ) ]].getD 0 []).getD 0 0 -
          (NoiseReducer.noiseSpecOf [[4, 0]]).getD 0 0)
        ((1 / 100) * (([[ (2 : ℚ) ]].getD 0 []).getD 0 0)) ∧
    (1 / 100) * (([[ (2 : ℚ) ]].getD 0 []).getD 0 0) ≤
      ((NoiseReducer.spectralSubtract [[2]]
        (NoiseReducer.noiseSpecOf [[4, 0]])).getD 0 []).getD 0 0 ∧
    ((NoiseReducer.spectralSubtract [[2]]
        (NoiseReducer.noiseSpecOf [[4, 0]])).getD 0 []).getD 0 0 ≤
      ([[ (2 : ℚ) ]].getD 0 []).getD 0 0 :=
  c3_spectral_subtraction_bounds [[2]] [[4, 0]]
    (by intro row hrow v hv; simp at hrow; subst hrow; simp at hv; norm_num [hv])
    (by intro row hrow v hv; simp at hrow; subst hrow;
        rcases List.mem_pair.mp hv with rfl | rfl <;> norm_num)
    0 0 (by norm_num) (by norm_num) (by norm_num)

/-- Claim C10: hard thresholding never shrinks a retained wavelet coefficient —
every entry of the thresholded scale-by-time matrix is exactly zero when the
coefficient's absolute value is at or below the threshold
`2.5 * median(|coeffs|) / 0.6745`, and exactly the original coefficient when
strictly above; no intermediate attenuation occurs. -/
theorem c10_hard_threshold (kern : ℕ → ℕ → List ℚ) (x : List ℚ) (i j : ℕ) :
    ((NoiseReducer.thresholdCoeffs kern x).getD i []).getD j 0 =
      (if NoiseReducer.waveletThreshold kern x <
          |((NoiseReducer.cwtModel kern x).getD i []).getD j 0|
        then ((NoiseReducer.cwtModel kern x).getD i []).getD j 0 else 0) ∧
    (|((NoiseReducer.cwtModel kern x).getD i []).getD j 0| ≤
        NoiseReducer.waveletThreshold kern x →
      ((NoiseReducer.thresholdCoeffs kern x).getD i []).getD j 0 = 0) ∧
    (NoiseReducer.waveletThreshold kern x <
        |((NoiseReducer.cwtModel kern x).getD i []).getD j 0| →
      ((NoiseReducer.thresholdCoeffs kern x).getD i []).getD j 0 =
        ((NoiseReducer.cwtModel kern x).getD i []).getD j 0) := by
  have key : ((NoiseReducer.thresholdCoeffs kern x).getD i []).getD j 0 =
      (if NoiseReducer.waveletThreshold kern x <
          |((NoiseReducer.cwtModel kern x).getD i []).getD j 0|
        then ((NoiseReducer.cwtModel kern x).getD i []).getD j 0 else 0) := by
    rw [NoiseReducer.thresholdCoeffs, getD_map_nil _ rfl,
      getD_map_zero _ (by simp) _ j]
  exact ⟨key, fun h => by rw [key, if_neg (not_lt.mpr h)],
    fun h => by rw [key, if_pos h]⟩


theorem insertAsc_perm (x : ℚ) (l : List ℚ) : List.Perm (insertAsc x l) (x :: l) := by
  induction l with
  | nil => simp [insertAsc]
  | cons h t ih =>
    rw [insertAsc]
    split
    · exact List.Perm.refl _
    · exact (ih.cons h).trans (List.Perm.swap x h t)

theorem sortAsc_perm (l : List ℚ) : List.Perm (sortAsc l) l := by
  induction l with
  | nil => simp [sortAsc]
  | cons h t ih => exact (insertAsc_perm h (sortAsc t)).trans (ih.cons h)

theorem insertAsc_sorted (x : ℚ) (l : List ℚ) (h : l.Sorted (· ≤ ·)) :
    (insertAsc x l).Sorted (· ≤ ·) := by
  induction l with
  | nil => simp [insertAsc]
  | cons a t ih =>
    rw [List.sorted_cons] at h
    rw [insertAsc]
    split
    · rw [List.sorted_cons]
      refine ⟨?_, (List.sorted_cons).mpr h⟩
      intro b hb
      rcases List.mem_cons.mp hb with rfl | hbt
      · assumption
      · exact le_trans (by assumption) (h.1 b hbt)
    · rw [List.sorted_cons]
      refine ⟨?_, ih h.2⟩
      intro b hb
      have hb' : b ∈ x :: t := (insertAsc_perm x t).mem_iff.mp hb
      rcases List.mem_cons.mp hb' with rfl | hbt
      · exact le_of_lt (not_le.mp (by assumption))
      · exact h.1 b hbt

theorem sortAsc_sorted (l : List ℚ) : (sortAsc l).Sorted (· ≤ ·) := by
  induction l with
  | nil => simp [sortAsc]
  | cons h t ih => exact insertAsc_sorted h (sortAsc t) ih

theorem sortAsc_eq_of_perm (l s : List ℚ) (hperm : List.Perm l s)
    (hs : s.Sorted (· ≤ ·)) : sortAsc l = s :=
  List.eq_of_perm_of_sorted ((sortAsc_perm l).trans hperm) (sortAsc_sorted l) hs

theorem sorted_replicate_pair (a b : ℚ) (n m : ℕ) (hab : a ≤ b) :
    (List.replicate n a ++ List.replicate m b).Sorted (· ≤ ·) := by
  refine List.pairwise_append.mpr ⟨?_, ?_, ?_⟩
  · rw [List.pairwise_replicate]; simp
  · rw [List.pairwise_replicate]; simp
  · intro u hu v hv
    rw [List.eq_of_mem_replicate hu, List.eq_of_mem_replicate hv]
    exact hab

theorem flatten_replicate_replicate (n m : ℕ) (c : ℚ) :
    (List.replicate n (List.replicate m c)).flatten = List.replicate (n * m) c := by
  induction n with
  | zero => simp
  | succ k ih =>
    rw [List.replicate_succ, List.flatten_cons, ih]
    rw [show (k + 1) * m = m + k * m by ring, List.replicate_add]

theorem perm_flatten_replicate_0040 (n : ℕ) :
    List.Perm (List.replicate n ([0, 0, 4, 0] : List ℚ)).flatten
      (List.replicate (3 * n) (0 : ℚ) ++ List.replicate n (4 : ℚ)) := by
  induction n with
  | zero => simp
  | succ k ih =>
    rw [List.replicate_succ, List.flatten_cons]
    have step1 : List.Perm (([0, 0, 4, 0] : List ℚ) ++
        (List.replicate k ([0, 0, 4, 0] : List ℚ)).flatten)
        (([0, 0, 4, 0] : List ℚ) ++
          (List.replicate (3 * k) (0 : ℚ) ++ List.replicate k (4 : ℚ))) :=
      ih.append_left _
    refine step1.trans ?_
    have : ([0, 0, 4, 0] : List ℚ) ++
        (List.replicate (3 * k) (0 : ℚ) ++ List.replicate k (4 : ℚ)) =
        0 :: 0 :: 4 :: 0 :: (List.replicate (3 * k) (0 : ℚ) ++
          List.replicate k (4 : ℚ)) := rfl
    rw [this]
    have swap34 : List.Perm
        ((0 : ℚ) :: 0 :: 4 :: 0 :: (List.replicate (3 * k) (0 : ℚ) ++
          List.replicate k (4 : ℚ)))
        ((0 : ℚ) :: 0 :: 0 :: 4 :: (List.replicate (3 * k) (0 : ℚ) ++
          List.replicate k (4 : ℚ))) :=
      ((List.Perm.swap (0 : ℚ) (4 : ℚ) _).cons 0).cons 0
    refine swap34.trans ?_
    have mid : List.Perm
        ((4 : ℚ) :: (List.replicate (3 * k) (0 : ℚ) ++ List.replicate k (4 : ℚ)))
        (List.replicate (3 * k) (0 : ℚ) ++ (4 : ℚ) :: List.replicate k (4 : ℚ)) :=
      List.perm_middle.symm
    have tail3 : List.Perm
        ((0 : ℚ) :: 0 :: 0 :: (4 : ℚ) :: (List.replicate (3 * k) (0 : ℚ) ++
          List.replicate k (4 : ℚ)))
        ((0 : ℚ) :: 0 :: 0 :: (List.replicate (3 * k) (0 : ℚ) ++
          (4 : ℚ) :: List.replicate k (4 : ℚ))) :=
      ((mid.cons 0).cons 0).cons 0
    refine tail3.trans ?_
    have : (0 : ℚ) :: 0 :: 0 :: (List.replicate (3 * k) (0 : ℚ) ++
        (4 : ℚ) :: List.replicate k (4 : ℚ)) =
        List.replicate (3 * (k + 1)) (0 : ℚ) ++ List.replicate (k + 1) (4 : ℚ) := by
      rw [show 3 * (k + 1) = 3 + 3 * k by ring, List.replicate_add]
      rfl
    rw [this]

theorem cwt_waveDemo :
    NoiseReducer.cwtModel waveKern [(4 : ℚ), 0, 0, 0] =
      List.replicate 30 [0, 0, 4, 0] := by
  rw [NoiseReducer.cwtModel]
  have hc : ∀ i ∈ List.range 30,
      (fun i => convolveSameSci [(4 : ℚ), 0, 0, 0]
        ((waveKern (min (10 * (i + 1)) [(4 : ℚ), 0, 0, 0].length) (i + 1)).reverse)) i =
        [0, 0, 4, 0] := by
    intro i _
    simp only
    have hmin : min (10 * (i + 1)) [(4 : ℚ), 0, 0, 0].length = 4 := by
      simp
      omega
    rw [hmin]
    have hker : (waveKern 4 (i + 1)).reverse = [0, 0, 0, 1] := by
      norm_num [waveKern]
      rfl
    rw [hker]
    norm_num [convolveSameSci, fullConv, List.range_succ]
  rw [List.map_congr_left hc]
  simp [List.map_const']

theorem thr_waveDemo : NoiseReducer.waveletThreshold waveKern [(4 : ℚ), 0, 0, 0] = 0 := by
  rw [NoiseReducer.waveletThreshold, cwt_waveDemo]
  have habs : (List.replicate 30 ([0, 0, 4, 0] : List ℚ)).flatten.map (fun c => |c|) =
      (List.replicate 30 ([0, 0, 4, 0] : List ℚ)).flatten := by
    rw [List.map_flatten, List.map_replicate]
    norm_num
  rw [habs]
  have hsort : sortAsc (List.replicate 30 ([0, 0, 4, 0] : List ℚ)).flatten =
      List.replicate 90 (0 : ℚ) ++ List.replicate 30 (4 : ℚ) := by
    refine sortAsc_eq_of_perm _ _ ?_ (sorted_replicate_pair 0 4 90 30 (by norm_num))
    have := perm_flatten_replicate_0040 30
    simpa using this
  rw [qmedian, hsort]
  norm_num
  rw [List.getElem_append_left (by simp), List.getElem_append_left (by simp),
    List.getElem_replicate, List.getElem_replicate]
  norm_num

theorem raw_waveDemo :
    NoiseReducer.waveletDenoisedRaw waveKern [(4 : ℚ), 0, 0, 0] = [0, 0, 4, 0] := by
  rw [NoiseReducer.waveletDenoisedRaw, NoiseReducer.thresholdCoeffs, thr_waveDemo,
    cwt_waveDemo, List.map_replicate]
  have hrow : ([0, 0, 4, 0] : List ℚ).map (fun c => if (0 : ℚ) < |c| then c else 0) =
      [0, 0, 4, 0] := by
    norm_num
  rw [hrow, NoiseReducer.meanAxis0]
  have hhead : (List.replicate 30 ([0, 0, 4, 0] : List ℚ)).headD [] = [0, 0, 4, 0] := rfl
  rw [hhead]
  norm_num [List.range_succ, List.map_replicate, List.sum_replicate]

theorem norm_waveDemo :
    NoiseReducer.waveletNormalized waveKern [(4 : ℚ), 0, 0, 0] = [0, 0, 1, 0] := by
  rw [NoiseReducer.waveletNormalized, raw_waveDemo]
  have hmax : listMax (([0, 0, 4, 0] : List ℚ).map (fun v => |v|)) = 4 := by
    norm_num [listMax, max_def]
  rw [hmax, if_pos (by norm_num : (0 : ℚ) < 4)]
  norm_num

theorem wavelet_waveDemo_eval :
    NoiseReducer.reduce_noise_wavelet demoSqrt waveKern 0 [(4 : ℚ), 0, 0, 0] =
      some [0, 0, 4, 0] := by
  rw [reduce_noise_wavelet_eq demoSqrt waveKern 0 _ (by simp), norm_waveDemo]
  have hms : meanSq ([0, 0, 1, 0] : List ℚ) = 1 / 4 := by
    norm_num [meanSq, qmean]
  have hmo : meanSq ([(4 : ℚ), 0, 0, 0]) = 4 := by
    norm_num [meanSq, qmean]
  rw [hms, hmo]
  have h1 : demoSqrt (1 / 4) = 1 / 2 := by norm_num [demoSqrt]
  have h2 : demoSqrt 4 = 2 := by norm_num [demoSqrt]
  rw [h1, h2, if_pos (by norm_num : (0 : ℚ) < 1 / 2)]
  norm_num

theorem cwt_zeroDemo :
    NoiseReducer.cwtModel demoKern [(0 : ℚ), 0, 0, 0] =
      List.replicate 30 [0, 0, 0, 0] := by
  rw [NoiseReducer.cwtModel]
  have hc : ∀ i ∈ List.range 30,
      (fun i => convolveSameSci [(0 : ℚ), 0, 0, 0]
        ((demoKern (min (10 * (i + 1)) [(0 : ℚ), 0, 0, 0].length) (i + 1)).reverse)) i =
        [0, 0, 0, 0] := by
    intro i _
    simp only
    have hmin : min (10 * (i + 1)) [(0 : ℚ), 0, 0, 0].length = 4 := by
      simp
      omega
    rw [hmin]
    have hker : (demoKern 4 (i + 1)).reverse = [1, 1, 1, 1] := by
      rw [demoKern, List.reverse_replicate]
      rfl
    rw [hker]
    norm_num [convolveSameSci, fullConv, List.range_succ]
  rw [List.map_congr_left hc]
  simp [List.map_const']

theorem wavelet_zeroDemo_eval :
    NoiseReducer.reduce_noise_wavelet demoSqrt demoKern 100 [(0 : ℚ), 0, 0, 0] =
      some [0, 0, 0, 0] := by
  have hflat : (List.replicate 30 ([0, 0, 0, 0] : List ℚ)).flatten =
      List.replicate 120 (0 : ℚ) := by
    rw [show ([0, 0, 0, 0] : List ℚ) = List.replicate 4 0 from rfl,
      flatten_replicate_replicate]
  have hthr : NoiseReducer.waveletThreshold demoKern [(0 : ℚ), 0, 0, 0] = 0 := by
    rw [NoiseReducer.waveletThreshold, cwt_zeroDemo, hflat, List.map_replicate]
    have hsort : sortAsc (List.replicate 120 (|(0 : ℚ)|)) =
        List.replicate 120 (0 : ℚ) := by
      refine sortAsc_eq_of_perm _ _ ?_ ?_
      · rw [abs_zero]
      · rw [List.Sorted, List.pairwise_replicate]
        simp
    rw [qmedian, hsort]
    norm_num [List.getElem_replicate]
  have hraw : NoiseReducer.waveletDenoisedRaw demoKern [(0 : ℚ), 0, 0, 0] =
      [0, 0, 0, 0] := by
    rw [NoiseReducer.waveletDenoisedRaw, NoiseReducer.thresholdCoeffs, hthr,
      cwt_zeroDemo, List.map_replicate]
    have hrow : ([0, 0, 0, 0] : List ℚ).map (fun c => if (0 : ℚ) < |c| then c else 0) =
        [0, 0, 0, 0] := by
      norm_num
    rw [hrow, NoiseReducer.meanAxis0]
    have hhead : (List.replicate 30 ([0, 0, 0, 0] : List ℚ)).headD [] = [0, 0, 0, 0] := rfl
    rw [hhead]
    norm_num [List.range_succ, List.map_replicate, List.sum_replicate]
  have hnorm : NoiseReducer.waveletNormalized demoKern [(0 : ℚ), 0, 0, 0] =
      [0, 0, 0, 0] := by
    rw [NoiseReducer.waveletNormalized, hraw]
    have hmax : listMax (([0, 0, 0, 0] : List ℚ).map (fun v => |v|)) = 0 := by
      norm_num [listMax, max_def]
    rw [hmax, if_neg (by norm_num)]
  rw [reduce_noise_wavelet_eq demoSqrt demoKern 100 _ (by simp), hnorm]
  have hms : meanSq ([0, 0, 0, 0] : List ℚ) = 0 := by
    norm_num [meanSq, qmean]
  rw [hms]
  have h0 : demoSqrt 0 = 0 := by norm_num [demoSqrt]
  rw [h0, if_neg (by norm_num)]

theorem demo_detect :
    NoiseReducer.detect_silence demoLog 100 demoBuf =
      some [true, true, false, false] := by
  norm_num [NoiseReducer.detect_silence, silenceFrames, frameModel, frameLen, hopLen,
    amplitudeToDb, listMax, demoLog, demoBuf, List.range_succ]

theorem demo_s1 :
    NoiseReducer.reduce_noise_standard demoBackend demoLog 100 demoBuf =
      some [0, 0, 0, 0] := by
  rw [NoiseReducer.reduce_noise_standard, demo_detect]
  simp only [Option.map_some']
  rw [if_pos (by norm_num)]
  rw [show demoBuf.length = 4 from rfl]
  rfl

theorem demo_multi :
    NoiseReducer.multi_stage_denoising demoBackend demoSqrt demoLog demoKern 100
      demoBuf = some [0, 0, 40, 0] := by
  have h := multi_stage_eq demoBackend demoSqrt demoLog demoKern 100 demoBuf
    [0, 0, 0, 0] [0, 0, 0, 0] [true, true, false, false]
    demo_s1 wavelet_zeroDemo_eval demo_detect
  rw [h]
  norm_num [demoBuf, List.range_succ]

theorem meanSq_map_mul (l : List ℚ) (c : ℚ) :
    meanSq (l.map (fun s => s * c)) = c ^ 2 * meanSq l := by
  rw [meanSq, meanSq, qmean, qmean, List.map_map]
  have hm : (l.map ((fun s => s ^ 2) ∘ fun s => s * c)) =
      l.map (fun s => s ^ 2 * c ^ 2) := by
    refine List.map_congr_left ?_
    intro v _
    simp only [Function.comp]
    ring
  rw [hm]
  have hs := List.sum_map_mul_right l (fun s => s ^ 2) (c ^ 2)
  simp only at hs
  rw [hs]
  simp only [List.length_map]
  ring

/-- Claim C4: whenever the normalised wavelet reconstruction has nonzero RMS,
`reduce_noise_wavelet` rescales it by `orig_rms / denoised_rms`, so the output
has exactly the input's mean square (hence RMS) — stated here in the exact
(real-arithmetic) sense, with the `np.sqrt` oracle assumed exact at the two
mean squares it is applied to; when the reconstructed RMS is zero, the rescale
step is skipped (no division by zero occurs) and the normalised reconstruction
is returned unchanged. -/
theorem c4_wavelet_rms_preservation (sqrtFn : ℚ → ℚ) (kern : ℕ → ℕ → List ℚ)
    (sr : ℕ) (x : List ℚ)
    (ha : sqrtFn (meanSq x) ^ 2 = meanSq x)
    (hb : sqrtFn (meanSq (NoiseReducer.waveletNormalized kern x)) ^ 2 =
      meanSq (NoiseReducer.waveletNormalized kern x))
    (hbn : 0 ≤ sqrtFn (meanSq (NoiseReducer.waveletNormalized kern x))) :
    (meanSq (NoiseReducer.waveletNormalized kern x) ≠ 0 →
      ∀ out, NoiseReducer.reduce_noise_wavelet sqrtFn kern sr x = some out →
        meanSq out = meanSq x) ∧
    (meanSq (NoiseReducer.waveletNormalized kern x) = 0 → x ≠ [] →
      NoiseReducer.reduce_noise_wavelet sqrtFn kern sr x =
        some (NoiseReducer.waveletNormalized kern x)) := by
  constructor
  · intro hne out hout
    have hxne : x ≠ [] := by
      intro h
      rw [h] at hout
      simp [NoiseReducer.reduce_noise_wavelet] at hout
    rw [reduce_noise_wavelet_eq sqrtFn kern sr x hxne] at hout
    have hbpos : 0 < sqrtFn (meanSq (NoiseReducer.waveletNormalized kern x)) := by
      rcases lt_or_eq_of_le hbn with h | h
      · exact h
      · exfalso
        apply hne
        rw [← hb, ← h]
        ring
    rw [if_pos hbpos] at hout
    have hout' := Option.some.inj hout
    rw [← hout', meanSq_map_mul]
    rw [div_pow, ha, hb]
    field_simp
  · intro h0 hxne
    rw [reduce_noise_wavelet_eq sqrtFn kern sr x hxne]
    have hb0 : sqrtFn (meanSq (NoiseReducer.waveletNormalized kern x)) = 0 := by
      have hsq : sqrtFn (meanSq (NoiseReducer.waveletNormalized kern x)) ^ 2 = 0 := by
        rw [hb, h0]
      exact pow_eq_zero_iff (two_ne_zero) |>.mp hsq
    rw [hb0, if_neg (by norm_num)]

/-- Witness for C4 at the concrete delta kernel and buffer `[4, 0, 0, 0]`: the
wavelet output `[0, 0, 4, 0]` has the input's mean square. -/
theorem c4_wavelet_rms_preservation_witness :
    meanSq ([0, 0, 4, 0] : List ℚ) = meanSq ([(4 : ℚ), 0, 0, 0]) :=
  (c4_wavelet_rms_preservation demoSqrt waveKern 0 [(4 : ℚ), 0, 0, 0]
    (by rw [show meanSq ([(4 : ℚ), 0, 0, 0]) = 4 by norm_num [meanSq, qmean]]
        norm_num [demoSqrt])
    (by rw [norm_waveDemo, show meanSq ([0, 0, 1, 0] : List ℚ) = 1 / 4 by
          norm_num [meanSq, qmean]]
        norm_num [demoSqrt])
    (by rw [norm_waveDemo, show meanSq ([0, 0, 1, 0] : List ℚ) = 1 / 4 by
          norm_num [meanSq, qmean]]
        norm_num [demoSqrt])).1
    (by rw [norm_waveDemo]
        norm_num [meanSq, qmean])
    [0, 0, 4, 0] wavelet_waveDemo_eval

/-- Claim C7: `multi_stage_denoising` returns, per sample, `0.9 * stage2` on
samples marked silent and `0.6 * stage2 + 0.4 * original` on samples not
marked silent, where `stage2` is the wavelet denoiser applied to the
spectral-subtraction denoiser's output and the silence mask is recomputed on
the original input buffer. -/
theorem c7_multi_stage_mixing (B : DSPBackend) (sqrtFn logFn : ℚ → ℚ)
    (kern : ℕ → ℕ → List ℚ) (sr : ℕ) (x out s1 s2 : List ℚ) (mask : List Bool)
    (h : NoiseReducer.multi_stage_denoising B sqrtFn logFn kern sr x = some out)
    (h1 : NoiseReducer.reduce_noise_standard B logFn sr x = some s1)
    (h2 : NoiseReducer.reduce_noise_wavelet sqrtFn kern sr s1 = some s2)
    (h3 : NoiseReducer.detect_silence logFn sr x = some mask) :
    out = (List.range x.length).map (fun j =>
      if mask.getD j false then (9 / 10) * s2.getD j 0
      else (6 / 10) * s2.getD j 0 + (4 / 10) * x.getD j 0) := by
  rw [multi_stage_eq B sqrtFn logFn kern sr x s1 s2 mask h1 h2 h3] at h
  exact (Option.some.inj h).symm

/-- Witness for C7: the demo pipeline (`[1, 0, 100, 0]` at 100 Hz, silence on
the first two samples) mixes stage2 `[0, 0, 0, 0]` with the original buffer to
`[0, 0, 40, 0]`. -/
theorem c7_multi_stage_mixing_witness :
    ([0, 0, 40, 0] : List ℚ) = (List.range demoBuf.length).map (fun j =>
      if ([true, true, false, false] : List Bool).getD j false
      then (9 / 10) * ([0, 0, 0, 0] : List ℚ).getD j 0
      else (6 / 10) * ([0, 0, 0, 0] : List ℚ).getD j 0 +
        (4 / 10) * demoBuf.getD j 0) :=
  c7_multi_stage_mixing demoBackend demoSqrt demoLog demoKern 100 demoBuf
    [0, 0, 40, 0] [0, 0, 0, 0] [0, 0, 0, 0] [true, true, false, false]
    demo_multi demo_s1 wavelet_zeroDemo_eval demo_detect

theorem detect_silence_inv (logFn : ℚ → ℚ) (sr : ℕ) (x : List ℚ) (mask : List Bool)
    (h : NoiseReducer.detect_silence logFn sr x = some mask) :
    1 ≤ hopLen sr ∧ frameLen sr ≤ x.length ∧ mask.length = x.length := by
  rw [NoiseReducer.detect_silence, silenceFrames, frameModel] at h
  by_cases h1 : hopLen sr < 1
  · rw [if_pos h1] at h
    simp at h
  by_cases h2 : x.length < frameLen sr
  · rw [if_neg h1, if_pos h2] at h
    simp at h
  refine ⟨by omega, by omega, ?_⟩
  rw [if_neg h1, if_neg h2] at h
  simp only [Option.map_some'] at h
  rw [← Option.some.inj h]
  simp

theorem multi_stage_inv (B : DSPBackend) (sqrtFn logFn : ℚ → ℚ)
    (kern : ℕ → ℕ → List ℚ) (sr : ℕ) (x base : List ℚ)
    (h : NoiseReducer.multi_stage_denoising B sqrtFn logFn kern sr x = some base) :
    ∃ s1 s2 mask, NoiseReducer.reduce_noise_standard B logFn sr x = some s1 ∧
      NoiseReducer.reduce_noise_wavelet sqrtFn kern sr s1 = some s2 ∧
      NoiseReducer.detect_silence logFn sr x = some mask ∧
      base = (List.range x.length).map (fun j =>
        if mask.getD j false then (9 / 10) * s2.getD j 0
        else (6 / 10) * s2.getD j 0 + (4 / 10) * x.getD j 0) := by
  rw [NoiseReducer.multi_stage_denoising] at h
  obtain ⟨s1, hs1, h⟩ := Option.bind_eq_some.mp h
  obtain ⟨s2, hs2, h⟩ := Option.bind_eq_some.mp h
  obtain ⟨mask, hmask, h⟩ := Option.bind_eq_some.mp h
  exact ⟨s1, s2, mask, hs1, hs2, hmask, (Option.some.inj h).symm⟩

/-- Claim C9 (refinement): with voice preservation disabled,
`enhanced_multi_stage_denoising` returns exactly the `multi_stage_denoising`
output, unmodified and unsmoothed; with voice preservation enabled it agrees
with the spec-modelled composition `enhancedSpecTrue` — blend `0.9 * base` on
silent samples and `0.7 * base + 0.3 * original` on voiced samples, then apply
the 10 ms boxcar moving average over the entire result (same length as the
input). -/
theorem c9_enhanced_refinement :
    (∀ (B : DSPBackend) (sqrtFn logFn : ℚ → ℚ) (kern : ℕ → ℕ → List ℚ)
        (sr : ℕ) (x : List ℚ),
        NoiseReducer.enhanced_multi_stage_denoising B sqrtFn logFn kern sr x false =
          NoiseReducer.multi_stage_denoising B sqrtFn logFn kern sr x) ∧
    (∀ (B : DSPBackend) (sqrtFn logFn : ℚ → ℚ) (kern : ℕ → ℕ → List ℚ)
        (sr : ℕ) (x : List ℚ),
        NoiseReducer.enhanced_multi_stage_denoising B sqrtFn logFn kern sr x true =
          enhancedSpecTrue B sqrtFn logFn kern sr x) := by
  refine ⟨fun B sqrtFn logFn kern sr x => enhanced_false_eq B sqrtFn logFn kern sr x,
    fun B sqrtFn logFn kern sr x => ?_⟩
  cases hmulti : NoiseReducer.multi_stage_denoising B sqrtFn logFn kern sr x with
  | none =>
    simp [NoiseReducer.enhanced_multi_stage_denoising, enhancedSpecTrue, hmulti]
  | some base =>
    cases hdet : NoiseReducer.detect_silence logFn sr x with
    | none =>
      simp [NoiseReducer.enhanced_multi_stage_denoising, enhancedSpecTrue, hmulti, hdet]
    | some mask =>
      obtain ⟨hw, hfl, hlm⟩ := detect_silence_inv logFn sr x mask hdet
      obtain ⟨s1, s2, mask', _, _, hmask', hbase⟩ :=
        multi_stage_inv B sqrtFn logFn kern sr x base hmulti
      have hlb : base.length = x.length := by
        rw [hbase]
        simp
      rw [enhanced_true_eq B sqrtFn logFn kern sr x base mask hmulti hdet hw]
      rw [enhancedSpecTrue, hmulti, hdet]
      simp only [Option.bind_some, Option.some_bind]
      have hblend : (List.range x.length).map (fun j =>
          if mask.getD j false then (9 / 10) * base.getD j 0
          else (7 / 10) * base.getD j 0 + (3 / 10) * x.getD j 0) =
          List.zipWith (fun (p : ℚ × Bool) o =>
            if p.2 then (9 / 10) * p.1 else (7 / 10) * p.1 + (3 / 10) * o)
            (base.zip mask) x := by
        refine List.ext_getElem ?_ ?_
        · simp [hlb, hlm]
        · intro j hj1 hj2
          have hjx : j < x.length := by simpa using hj1
          have hjb : j < base.length := by omega
          have hjm : j < mask.length := by omega
          rw [List.getElem_map, List.getElem_range, List.getElem_zipWith,
            List.getElem_zip, List.getD_eq_getElem _ _ hjm,
            List.getD_eq_getElem _ _ hjb, List.getD_eq_getElem _ _ hjx]
      rw [hblend]
      have hlen : (List.zipWith (fun (p : ℚ × Bool) o =>
          if p.2 then (9 / 10) * p.1 else (7 / 10) * p.1 + (3 / 10) * o)
          (base.zip mask) x).length = x.length := by
        simp [hlb, hlm]
      simp only [smoothSpec, convolveSameNp, List.length_replicate, hopLen, hlen]
      have hmin : min x.length (sr / 100) = sr / 100 := by
        refine Nat.min_eq_right (le_trans ?_ hfl)
        exact hopLen_le_frameLen sr
      have hmax : max x.length (sr / 100) = x.length := by
        refine Nat.max_eq_left (le_trans ?_ hfl)
        exact hopLen_le_frameLen sr
      rw [hmin, hmax]
      simp [hlen]
      omega

/-- Counterexample to C5 as stated: the detector's conversion is not
`10*log10(energy/max_energy)`.  At `sr = 100` the buffer `[1, 0, 100, 0]` has
frame energies `1, 10000, 10000`; the claim's formula gives the first frame
`10*log10(10^-4) = -40 dB` (not silent at the -45 dB threshold, witnessed by
`specFrameSilent` with a log oracle exact at `10^-4`), yet the code (librosa's
20-per-amplitude-decade conversion applied to energies, oracle exact at `1`
and `10^8`) marks it silent (`-80 dB`), so the code's mask flags the first two
samples. -/
theorem c5_counterexample :
    NoiseReducer.detect_silence c5log 100 demoBuf =
      some [true, true, false, false] ∧
    specFrameSilent c5log 1 10000 = false := by
  constructor
  · norm_num [NoiseReducer.detect_silence, silenceFrames, frameModel, frameLen,
      hopLen, amplitudeToDb, listMax, c5log, demoBuf, List.range_succ]
  · norm_num [specFrameSilent, specFrameDb, c5log]

/-- Claim C5 as amended: each 20 ms frame's energy is the sum of squared
samples, but the dB conversion is librosa's `amplitude_to_db(energy,
ref=np.max)` — `20*log10` on the energy with a `1e-5` amplitude floor and an
80 dB clip below the maximum — and there is no `-100 dB` sentinel: an entirely
silent (all-zero) buffer produces identical floored energies, every frame sits
at `0 dB` relative to the maximum, and consequently no frame is silent; a
frame is silent exactly when its dB value is strictly below the threshold, as
in the `[1, 0, 100, 0]` example where the first frame's `-80 dB` value is
flagged silent. -/
theorem c5_amended_db_conversion :
    (∀ (logFn : ℚ → ℚ) (sr n : ℕ), 100 ≤ sr → frameLen sr ≤ n →
        NoiseReducer.detect_silence logFn sr (List.replicate n 0) =
          some (List.replicate n false)) ∧
    (∀ logFn : ℚ → ℚ, logFn 1 = 0 → logFn 100000000 = 8 →
        NoiseReducer.detect_silence logFn 100 demoBuf =
          some [true, true, false, false]) := by
  constructor
  · intro logFn sr n h1 h2
    have h := detect_silence_quiet logFn sr (List.replicate n 0) 0 h1
      (by simpa using h2)
      (fun v hv => by rw [List.eq_of_mem_replicate hv]; norm_num)
      (by norm_num)
    simpa using h
  · intro logFn h1 h8
    norm_num [NoiseReducer.detect_silence, silenceFrames, frameModel, frameLen,
      hopLen, amplitudeToDb, listMax, demoBuf, List.range_succ, h1, h8]

/-- Witness for the amended C5: an all-zero two-sample buffer at 100 Hz yields
an all-false mask, and the concrete `[1, 0, 100, 0]` example is flagged as in
the amended statement. -/
theorem c5_amended_db_conversion_witness :
    NoiseReducer.detect_silence zlog 100 (List.replicate 2 0) =
      some (List.replicate 2 false) ∧
    NoiseReducer.detect_silence demoLog 100 demoBuf =
      some [true, true, false, false] :=
  ⟨c5_amended_db_conversion.1 zlog 100 2 (by norm_num) (by norm_num [frameLen]),
    c5_amended_db_conversion.2 demoLog (by norm_num [demoLog])
      (by norm_num [demoLog])⟩

/-- Counterexample to C6 as stated: a buffer of amplitude `10^-6` for its
entire duration (4 samples at 100 Hz, duration 0.04 s) makes every frame
energy fall below the `amplitude_to_db` floor, so every frame sits at `0 dB`
relative to the maximum and none is silent: the evaluator reports
`non_speech_ratio = 0` and `max_silence = 0`, not `1.0` and the buffer
duration `1/25`. -/
theorem c6_counterexample :
    AudioEvaluator.detect_silence zlog (List.replicate 4 (1 / 1000000)) 100
      (-45) = some (0, 0) ∧
    AudioEvaluator.detect_silence zlog (List.replicate 4 (1 / 1000000)) 100
      (-45) ≠ some (1, 1 / 25) := by
  have h := eval_detect_silence_quiet zlog (List.replicate 4 (1 / 1000000)) 100
    (1 / 1000000) (by norm_num) (by norm_num [frameLen])
    (fun v hv => by
      rw [List.eq_of_mem_replicate hv, abs_of_nonneg (by norm_num)])
    (by norm_num [frameLen])
  refine ⟨h, ?_⟩
  rw [h]
  intro hc
  have := Option.some.inj hc
  have h0 : (0 : ℚ) = 1 := congrArg Prod.fst this
  norm_num at h0

/-- Claim C6 as amended: for every buffer whose samples all have amplitude at
most `10^-6` (long enough to frame, with a 20 ms frame of at most `10^6`
samples so each frame energy stays below the `1e-5` amplitude floor),
`evaluate_audio`'s silence detection reports `non_speech_ratio = 0` and
`max_silence_seconds = 0`: the relative-to-maximum dB normalisation makes a
uniformly near-silent buffer look uniformly loud. -/
theorem c6_amended_quiet_buffer (logFn : ℚ → ℚ) (x : List ℚ) (sr : ℕ)
    (hsr : 100 ≤ sr) (hx : frameLen sr ≤ x.length) (hfl : frameLen sr ≤ 1000000)
    (hsmall : ∀ v ∈ x, |v| ≤ 1 / 1000000) :
    AudioEvaluator.detect_silence logFn x sr (-45) = some (0, 0) := by
  refine eval_detect_silence_quiet logFn x sr (1 / 1000000) hsr hx hsmall ?_
  have hc : (frameLen sr : ℚ) ≤ 1000000 := by exact_mod_cast hfl
  nlinarith

/-- Witness for the amended C6 at a concrete five-sample buffer of amplitude
`1/2000000` at 100 Hz. -/
theorem c6_amended_quiet_buffer_witness :
    AudioEvaluator.detect_silence zlog (List.replicate 5 (1 / 2000000)) 100
      (-45) = some (0, 0) :=
  c6_amended_quiet_buffer zlog (List.replicate 5 (1 / 2000000)) 100
    (by norm_num) (by norm_num [frameLen]) (by norm_num [frameLen])
    (fun v hv => by
      rw [List.eq_of_mem_replicate hv, abs_of_nonneg (by norm_num)]
      norm_num)

/-- Counterexample to C8 as stated: the wavelet denoiser performs no input
validation at all — called with the non-positive sample rate `0` (which it
never consults) on the buffer `[4, 0, 0, 0]`, it is not rejected before any
transform runs: the full transform pipeline executes and produces the
processed output `[0, 0, 4, 0]`. -/
theorem c8_counterexample :
    NoiseReducer.reduce_noise_wavelet demoSqrt waveKern 0 [(4 : ℚ), 0, 0, 0] =
      some [0, 0, 4, 0] :=
  wavelet_waveDemo_eval

theorem zeroList_metrics (sqrtFn logFn : ℚ → ℚ) (m : ℕ) (hsq : sqrtFn 0 = 0) :
    AudioEvaluator.calculate_rms sqrtFn logFn (0 :: List.replicate m 0) = (0, -100) ∧
    AudioEvaluator.calculate_peak logFn (0 :: List.replicate m 0) = (0, -100) ∧
    AudioEvaluator.calculate_cv sqrtFn (0 :: List.replicate m 0) = 1 ∧
    AudioEvaluator.estimate_snr logFn (0 :: List.replicate m 0) = 100 := by
  have hall : ∀ v ∈ (0 : ℚ) :: List.replicate m 0, v = 0 := by
    intro v hv
    rcases List.mem_cons.mp hv with rfl | hv'
    · rfl
    · exact List.eq_of_mem_replicate hv'
  have hsum : ∀ l : List ℚ, (∀ v ∈ l, v = 0) → l.sum = 0 := fun l h =>
    List.sum_eq_zero h
  have hqm : qmean ((0 : ℚ) :: List.replicate m 0) = 0 := by
    rw [qmean, hsum _ hall]
    simp
  have hms : meanSq ((0 : ℚ) :: List.replicate m 0) = 0 := by
    rw [meanSq, qmean, hsum]
    · simp
    · intro v hv
      obtain ⟨u, hu, rfl⟩ := List.mem_map.mp hv
      rw [hall u hu]
      norm_num
  have habs : ((0 : ℚ) :: List.replicate m 0).map (fun v => |v|) =
      (0 : ℚ) :: List.replicate m 0 := by
    rw [List.map_cons, List.map_replicate, abs_zero]
  have hmax : listMax ((0 : ℚ) :: List.replicate m 0) = 0 :=
    le_antisymm (listMax_le _ 0 (le_refl 0) (fun v hv => le_of_eq (hall v hv)))
      (listMax_nonneg _ (fun v hv => ge_of_eq (hall v hv)))
  refine ⟨?_, ?_, ?_, ?_⟩
  · rw [AudioEvaluator.calculate_rms, hms, hsq]
    norm_num
  · rw [AudioEvaluator.calculate_peak, habs, hmax]
    norm_num
  · rw [AudioEvaluator.calculate_cv]
    simp only [habs, hqm]
    norm_num
  · rw [AudioEvaluator.estimate_snr]
    simp only [hqm, sub_zero]
    have h1 : qmean (((0 : ℚ) :: List.replicate m 0).map (fun s => s ^ 2)) = 0 := by
      have h := hms
      rw [meanSq] at h
      exact h
    have h2 : qmean (((0 : ℚ) :: List.replicate m 0).map (fun s => s)) = 0 := by
      rw [List.map_id', hqm]
    simp only [h1]
    have hnoise : ((0 : ℚ) :: List.replicate m 0).map (fun s => s) =
        (0 : ℚ) :: List.replicate m 0 := List.map_id' _
    rw [hnoise]
    simp only [h1]
    norm_num

/-- Claim C8 as amended: the code performs no explicit input validation —
invalid inputs surface (or do not) wherever a library primitive happens to
fail: the wavelet denoiser accepts any sample rate (it never reads it) and
processes every non-empty buffer normally, while the framing-based paths fail
only because `librosa.util.frame` rejects a buffer shorter than one frame or a
non-positive hop.  Numeric degeneracy never raises: on an all-zero buffer the
evaluator returns finite metrics through the documented sentinels — `-100 dB`
for zero RMS and zero peak, `cv = 1.0` for zero mean, `100 dB` for zero noise
power — and judges the buffer non-compliant. -/
theorem c8_amended_no_validation :
    (∀ (sqrtFn logFn : ℚ → ℚ) (sr n : ℕ), 100 ≤ sr → frameLen sr ≤ n →
        sqrtFn 0 = 0 →
        AudioEvaluator.evaluate_audio sqrtFn logFn (List.replicate n 0) sr =
          some ({ rms := 0, rms_db := -100, peak := 0, peak_db := -100,
                  cv := 1, snr := 100, non_speech_frac := 0,
                  max_silence := 0 }, false)) ∧
    (∀ (sqrtFn : ℚ → ℚ) (kern : ℕ → ℕ → List ℚ) (x : List ℚ), x ≠ [] →
        (NoiseReducer.reduce_noise_wavelet sqrtFn kern 0 x).isSome = true) := by
  constructor
  · intro sqrtFn logFn sr n hsr hn hsq
    have hn1 : 1 ≤ n := le_trans (frameLen_pos sr hsr) hn
    obtain ⟨m, rfl⟩ : ∃ m, n = m + 1 := ⟨n - 1, by omega⟩
    rw [List.replicate_succ]
    have hdet : AudioEvaluator.detect_silence logFn
        ((0 : ℚ) :: List.replicate m 0) sr (-45) = some (0, 0) := by
      refine eval_detect_silence_quiet logFn _ sr 0 hsr ?_ ?_ (by norm_num)
      · simpa [List.length_replicate] using hn
      · intro v hv
        rcases List.mem_cons.mp hv with rfl | hv'
        · norm_num
        · rw [List.eq_of_mem_replicate hv']
          norm_num
    simp only [AudioEvaluator.evaluate_audio]
    rw [hdet]
    simp only [Option.map_some', Option.some.injEq]
    obtain ⟨h1, h2, h3, h4⟩ := zeroList_metrics sqrtFn logFn m hsq
    rw [h1, h2, h3, h4]
    norm_num [AudioEvaluator.compliantOf, AudioEvaluator.standards]
  · intro sqrtFn kern x hx
    cases x with
    | nil => exact absurd rfl hx
    | cons a t => simp [NoiseReducer.reduce_noise_wavelet]

/-- Witness for the amended C8: the evaluator on a two-sample all-zero buffer
at 100 Hz returns the sentinel metrics and a non-compliant verdict, and the
wavelet denoiser with sample rate 0 still returns an output on `[1]`. -/
theorem c8_amended_no_validation_witness :
    AudioEvaluator.evaluate_audio demoSqrt zlog (List.replicate 2 0) 100 =
      some ({ rms := 0, rms_db := -100, peak := 0, peak_db := -100,
              cv := 1, snr := 100, non_speech_frac := 0,
              max_silence := 0 }, false) ∧
    (NoiseReducer.reduce_noise_wavelet demoSqrt demoKern 0 [(1 : ℚ)]).isSome =
      true :=
  ⟨c8_amended_no_validation.1 demoSqrt zlog 100 2 (by norm_num)
      (by norm_num [frameLen]) (by norm_num [demoSqrt]),
    c8_amended_no_validation.2 demoSqrt demoKern [(1 : ℚ)] (by simp)⟩
